import Mathlib

/-!
Verification of the Undo/Redo Transaction Engine of `src/historyManager.js`.

The embedding models JavaScript object references with natural-number
handles into a heap (`WorldState.heap`).  Heap entries are never erased
(garbage collection is unobservable), so a handle held by the tracked-object
map or by the scene always dereferences, just as a held JS reference does.
`WorldState` gathers exactly the mutable state touched by the undo/redo walk
handlers: the heap, the engine's `trackedObjects` map and the worldsmith
collaborator's `scene.children` and `createdObjects` arrays.  `HMState` adds
the `HistoryManager` bookkeeping fields (stacks, guard flags, the open
transaction and the id counter).

Numeric fields (coordinates, opacity) are copied by the engine but never
computed with, so they are modelled as integers.  The external object
factory (`objectCreator.js`) is an injected collaborator, modelled as an
abstract `Factory` record of descriptor-to-object functions, matching its
interface boundary in the specification.
-/

/-- Three-component vector, as used for position, rotation (Euler) and scale. -/
structure Vec3 where
  x : Int
  y : Int
  z : Int
deriving DecidableEq, Repr

/-- Transform triple carried by `xform` changes (`{pos, rot, scale}`). -/
structure Xform where
  pos : Vec3
  rot : Vec3
  scl : Vec3
deriving DecidableEq, Repr

/-- Material data recorded by snapshots: `color` is the hex value when the
material has a color object, `null` otherwise. -/
structure Material where
  color : Option Nat
  transparent : Bool
  opacity : Int
deriving DecidableEq, Repr

/-- The `userData` fields the engine reads or writes. -/
structure UserData where
  historyId : Option String
  shapeType : Option String
  assetType : Option String
  description : Option String
  name : Option String
deriving DecidableEq, Repr

/-- A live scene object, as seen through the fields `historyManager.js`
touches: transform, visibility, material and `userData`. -/
structure Obj where
  position : Vec3
  rotation : Vec3
  scl : Vec3
  visible : Bool
  material : Option Material
  userData : UserData
deriving DecidableEq, Repr

/-- Serializable record of one object's reconstructible state
(`createObjectSnapshot`).  The write-only `geometry` descriptor is omitted:
`restoreObjectFromSnapshot` reconstructs from `userData` alone. -/
structure Snapshot where
  id : String
  position : Vec3
  rotation : Vec3
  scl : Vec3
  userData : UserData
  visible : Bool
  material : Option Material
deriving DecidableEq, Repr

/-- Value carried by a property change: a color hex, a visibility flag or a
name string. -/
inductive PropVal where
  | num (n : Nat)
  | flag (b : Bool)
  | str (s : String)
deriving DecidableEq, Repr

/-- The tagged Change variants (`create`/`delete`/`xform`/`prop`).  The
transform endpoints are optional because `reverseTransform` and
`applyTransform` guard on their truthiness. -/
inductive Change where
  | create (id : String) (snapshotNew : Snapshot)
  | delete (id : String) (snapshotOld : Snapshot)
  | xform (id : String) (prev next : Option Xform)
  | prop (id : String) (key : String) (prev next : PropVal)
deriving DecidableEq, Repr

/-- A transaction: a labelled ordered group of changes.  The random
`id`/`timestamp` fields are never read back by the engine and are omitted. -/
structure Transaction where
  label : String
  changes : List Change
deriving DecidableEq, Repr

/-- The external object factory collaborator (`objectCreator.js`), seen at
its interface boundary: each constructor either produces an object or fails. -/
structure Factory where
  createShape : String → Option Obj
  createAsset : String → Option Obj
  createFromDescription : String → Option Obj

/-- The mutable world state touched by the undo/redo walk handlers: the
object heap (JS references modelled as handles), the engine's
`trackedObjects` id map and the worldsmith's `scene`/`createdObjects`
containers. -/
structure WorldState where
  heap : List (Nat × Obj)
  nextHandle : Nat
  trackedObjects : List (String × Nat)
  sceneChildren : List Nat
  createdObjects : List Nat
deriving DecidableEq, Repr

/-- The full `HistoryManager` state: stacks, capacity bound, re-entrancy
guard flags, the currently open transaction, the id counter and the world. -/
structure HMState where
  undoStack : List Transaction
  redoStack : List Transaction
  maxHistorySize : Nat
  isExecutingUndo : Bool
  isExecutingRedo : Bool
  isRecording : Bool
  currentTransaction : Option Transaction
  nextObjectId : Nat
  world : WorldState
deriving DecidableEq, Repr

/-- Association-list lookup (first match), modelling `Map.get`. -/
def alGet {α β : Type} [DecidableEq α] : List (α × β) → α → Option β
  | [], _ => none
  | (k, v) :: rest, key => if k = key then some v else alGet rest key

/-- Association-list update-or-append, modelling `Map.set`. -/
def alSet {α β : Type} [DecidableEq α] : List (α × β) → α → β → List (α × β)
  | [], key, val => [(key, val)]
  | (k, v) :: rest, key, val =>
      if k = key then (key, val) :: rest else (k, v) :: alSet rest key val

/-- Association-list removal, modelling `Map.delete`. -/
def alDel {α β : Type} [DecidableEq α] : List (α × β) → α → List (α × β)
  | [], _ => []
  | (k, v) :: rest, key =>
      if k = key then alDel rest key else (k, v) :: alDel rest key

/-- Removal of the first occurrence of an element, modelling the
`indexOf`/`splice(index, 1)` idiom used on `createdObjects` and the
child-list removal performed by `scene.remove`. -/
def removeFirst : List Nat → Nat → List Nat
  | [], _ => []
  | x :: rest, a => if x = a then rest else x :: removeFirst rest a

/-- Observable projection of a live object named by the round-trip law:
transform, visibility and material color (material presence is kept so that
color observations compose). -/
structure ObsObj where
  position : Vec3
  rotation : Vec3
  scl : Vec3
  visible : Bool
  hasMaterial : Bool
  color : Option Nat
deriving DecidableEq, Repr

/-- Observables of an object value. -/
def objObs (o : Obj) : ObsObj :=
  { position := o.position, rotation := o.rotation, scl := o.scl,
    visible := o.visible, hasMaterial := o.material.isSome,
    color := o.material.bind fun m => m.color }

/-- Observables of the object a handle dereferences to. -/
def observe (w : WorldState) (h : Nat) : Option ObsObj :=
  (alGet w.heap h).map objObs

/-- Source: `generateObjectId` — mint `obj_<n>` and bump the counter. -/
def generateObjectId (s : HMState) : String × HMState :=
  ("obj_" ++ toString s.nextObjectId, { s with nextObjectId := s.nextObjectId + 1 })

/-- Source: `getObjectId` — return the object's embedded id, minting and
embedding one if absent, and (re-)register the object under that id. -/
def getObjectId (s : HMState) (h : Nat) : String × HMState :=
  match alGet s.world.heap h with
  | none => ("", s)
  | some o =>
    match o.userData.historyId with
    | some id =>
        (id, { s with world := { s.world with
                 trackedObjects := alSet s.world.trackedObjects id h } })
    | none =>
        let (id, s1) := generateObjectId s
        let o' := { o with userData := { o.userData with historyId := some id } }
        (id, { s1 with world := { s1.world with
                 heap := alSet s1.world.heap h o',
                 trackedObjects := alSet s1.world.trackedObjects id h } })

/-- Source: `createObjectSnapshot` — snapshot a live object's state (the id
is assigned first, so the copied `userData` embeds it). -/
def createObjectSnapshot (s : HMState) (h : Nat) : Option Snapshot × HMState :=
  let (id, s1) := getObjectId s h
  match alGet s1.world.heap h with
  | none => (none, s1)
  | some o =>
      (some { id := id, position := o.position, rotation := o.rotation,
              scl := o.scl, userData := o.userData, visible := o.visible,
              material := o.material }, s1)

/-- Factory dispatch of `restoreObjectFromSnapshot`: shape kind, then asset
kind, then free-text description, with a cube fallback. -/
def reconstructBase (f : Factory) (snap : Snapshot) : Option Obj :=
  match snap.userData.shapeType with
  | some st => f.createShape st
  | none =>
    match snap.userData.assetType with
    | some ak => f.createAsset ak
    | none =>
      match snap.userData.description with
      | some d => f.createFromDescription d
      | none => f.createShape ("cube")

/-- State application of `restoreObjectFromSnapshot`: transform, visibility,
material fields (color only when the snapshot stored one) and `userData`
with the original id re-embedded. -/
def applySnapshotTo (snap : Snapshot) (o : Obj) : Obj :=
  let o1 := { o with position := snap.position, rotation := snap.rotation,
                     scl := snap.scl, visible := snap.visible }
  let o2 :=
    match snap.material, o1.material with
    | some sm, some m =>
        let m' : Material :=
          { color := (match sm.color with | some c => some c | none => m.color),
            transparent := sm.transparent, opacity := sm.opacity }
        { o1 with material := some m' }
    | _, _ => o1
  { o2 with userData := { snap.userData with historyId := some snap.id } }

/-- The object `restoreObjectFromSnapshot` builds, when the factory can
produce a base object for the snapshot's descriptor. -/
def reconstructObj (f : Factory) (snap : Snapshot) : Option Obj :=
  (reconstructBase f snap).map (applySnapshotTo snap)

/-- Source: `restoreObjectFromSnapshot` — rebuild an object from a snapshot
via the factory, allocate it a fresh handle and re-register it under the
snapshot's original id.  Returns the restored handle, or `none` when the
factory fails. -/
def restoreObjectFromSnapshot (f : Factory) (w : WorldState) (snap : Snapshot) :
    Option Nat × WorldState :=
  match reconstructObj f snap with
  | none => (none, w)
  | some o =>
    let h := w.nextHandle
    (some h, { w with heap := alSet w.heap h o,
                      nextHandle := w.nextHandle + 1,
                      trackedObjects := alSet w.trackedObjects snap.id h })

/-- Source: `startTransaction` — refused while an undo/redo walk is in
progress; otherwise opens a fresh empty transaction, discarding any open one. -/
def startTransaction (s : HMState) (label : String) : HMState :=
  if s.isExecutingUndo || s.isExecutingRedo then s
  else { s with currentTransaction := some { label := label, changes := [] } }

/-- Source: `addChange` — no-op while executing or while recording is
disabled; auto-opens an `Unknown Action` transaction when none is open, then
appends the change. -/
def addChange (s : HMState) (c : Change) : HMState :=
  if s.isExecutingUndo || s.isExecutingRedo || !s.isRecording then s
  else
    let s1 := match s.currentTransaction with
      | none => startTransaction s ("Unknown Action")
      | some _ => s
    match s1.currentTransaction with
    | some t => { s1 with currentTransaction := some { t with changes := t.changes ++ [c] } }
    | none => s1

/-- Source: `commitTransaction` — discard an absent or empty transaction;
otherwise push it, clear the redo stack and evict the oldest entry when the
capacity bound is exceeded.  Always leaves no open transaction. -/
def commitTransaction (s : HMState) : HMState :=
  match s.currentTransaction with
  | none => { s with currentTransaction := none }
  | some t =>
    if t.changes.length = 0 then { s with currentTransaction := none }
    else
      let pushed := s.undoStack ++ [t]
      let capped := if pushed.length > s.maxHistorySize then pushed.drop 1 else pushed
      { s with undoStack := capped, redoStack := [], currentTransaction := none }

/-- Source: `recordObjectCreation` — snapshot the object and add a `create`
change.  The snapshot (and hence id assignment) happens before the
`addChange` guard is consulted. -/
def recordObjectCreation (s : HMState) (h : Nat) : HMState :=
  match createObjectSnapshot s h with
  | (some snap, s1) => addChange s1 (Change.create snap.id snap)
  | (none, s1) => s1

/-- Source: `recordObjectDeletion` — use the caller-provided snapshot when
present, else snapshot now, and add a `delete` change. -/
def recordObjectDeletion (s : HMState) (h : Nat) (snapOverride : Option Snapshot) : HMState :=
  match snapOverride with
  | some snap => addChange s (Change.delete snap.id snap)
  | none =>
    match createObjectSnapshot s h with
    | (some snap, s1) => addChange s1 (Change.delete snap.id snap)
    | (none, s1) => s1

/-- Source: `recordTransformChange`. -/
def recordTransformChange (s : HMState) (h : Nat) (prev next : Option Xform) : HMState :=
  let (id, s1) := getObjectId s h
  addChange s1 (Change.xform id prev next)

/-- Source: `recordPropertyChange`. -/
def recordPropertyChange (s : HMState) (h : Nat) (key : String) (prev next : PropVal) : HMState :=
  let (id, s1) := getObjectId s h
  addChange s1 (Change.prop id key prev next)

/-- Source: `startCoalescing` — commit any open transaction, then open a new
one under the given label.  The sampling timer has an empty body and no
state effect, so it is not modelled. -/
def startCoalescing (s : HMState) (label : String) : HMState :=
  let s1 := match s.currentTransaction with
    | some _ => commitTransaction s
    | none => s
  startTransaction s1 label

/-- Source: `stopCoalescing` — clear the (state-free) timer and commit. -/
def stopCoalescing (s : HMState) : HMState :=
  commitTransaction s

/-- Source: `setObjectProperty` — the closed set of settable keys. -/
def setObjectProperty (o : Obj) (key : String) (v : PropVal) : Obj :=
  if key = "color" then
    match o.material, v with
    | some m, PropVal.num c => { o with material := some { m with color := some c } }
    | _, _ => o
  else if key = "visible" then
    match v with
    | PropVal.flag b => { o with visible := b }
    | _ => o
  else if key = "name" then
    match v with
    | PropVal.str n => { o with userData := { o.userData with name := some n } }
    | _ => o
  else o

/-- Source: `reverseCreate` — resolve the id and, when tracked, remove the
object from the scene, from `createdObjects` and from tracking; a miss is a
silent skip. -/
def reverseCreate (w : WorldState) (id : String) : WorldState :=
  match alGet w.trackedObjects id with
  | none => w
  | some h =>
    { w with sceneChildren := removeFirst w.sceneChildren h,
             createdObjects := removeFirst w.createdObjects h,
             trackedObjects := alDel w.trackedObjects id }

/-- Source: `applyCreate` — restore from `snapshotNew` and, on success, add
the restored object to the scene and to `createdObjects`. -/
def applyCreate (f : Factory) (w : WorldState) (snap : Snapshot) : WorldState :=
  match restoreObjectFromSnapshot f w snap with
  | (none, w1) => w1
  | (some h, w1) =>
    { w1 with sceneChildren := w1.sceneChildren ++ [h],
              createdObjects := w1.createdObjects ++ [h] }

/-- Source: `reverseDelete` — restore from `snapshotOld` (same body as
`applyCreate` on the forward snapshot). -/
def reverseDelete (f : Factory) (w : WorldState) (snap : Snapshot) : WorldState :=
  match restoreObjectFromSnapshot f w snap with
  | (none, w1) => w1
  | (some h, w1) =>
    { w1 with sceneChildren := w1.sceneChildren ++ [h],
              createdObjects := w1.createdObjects ++ [h] }

/-- Source: `applyDelete` — same removal body as `reverseCreate`. -/
def applyDelete (w : WorldState) (id : String) : WorldState :=
  match alGet w.trackedObjects id with
  | none => w
  | some h =>
    { w with sceneChildren := removeFirst w.sceneChildren h,
             createdObjects := removeFirst w.createdObjects h,
             trackedObjects := alDel w.trackedObjects id }

/-- Source: `reverseTransform` — when the id resolves and `prev` is present,
re-apply the previous transform. -/
def reverseTransform (w : WorldState) (id : String) (prev : Option Xform) : WorldState :=
  match alGet w.trackedObjects id with
  | none => w
  | some h =>
    match prev with
    | none => w
    | some x =>
      match alGet w.heap h with
      | none => w
      | some o =>
        let o' := { o with position := x.pos, rotation := x.rot, scl := x.scl }
        { w with heap := alSet w.heap h o' }

/-- Source: `applyTransform` — when the id resolves and `next` is present,
apply the next transform. -/
def applyTransform (w : WorldState) (id : String) (next : Option Xform) : WorldState :=
  match alGet w.trackedObjects id with
  | none => w
  | some h =>
    match next with
    | none => w
    | some x =>
      match alGet w.heap h with
      | none => w
      | some o =>
        let o' := { o with position := x.pos, rotation := x.rot, scl := x.scl }
        { w with heap := alSet w.heap h o' }

/-- Source: `reverseProperty` — when the id resolves, set the key back to
`prev`. -/
def reverseProperty (w : WorldState) (id key : String) (prev : PropVal) : WorldState :=
  match alGet w.trackedObjects id with
  | none => w
  | some h =>
    match alGet w.heap h with
    | none => w
    | some o => { w with heap := alSet w.heap h (setObjectProperty o key prev) }

/-- Source: `applyProperty` — when the id resolves, set the key to `next`. -/
def applyProperty (w : WorldState) (id key : String) (next : PropVal) : WorldState :=
  match alGet w.trackedObjects id with
  | none => w
  | some h =>
    match alGet w.heap h with
    | none => w
    | some o => { w with heap := alSet w.heap h (setObjectProperty o key next) }

/-- Source: `reverseChange` — exhaustive dispatch on the change kind. -/
def reverseChange (f : Factory) (w : WorldState) : Change → WorldState
  | .create id _ => reverseCreate w id
  | .delete _ snap => reverseDelete f w snap
  | .xform id prev _ => reverseTransform w id prev
  | .prop id key prev _ => reverseProperty w id key prev

/-- Source: `applyChange` — exhaustive dispatch on the change kind. -/
def applyChange (f : Factory) (w : WorldState) : Change → WorldState
  | .create _ snap => applyCreate f w snap
  | .delete id _ => applyDelete w id
  | .xform id _ next => applyTransform w id next
  | .prop id key _ next => applyProperty w id key next

/-- The world walk performed by `undo`: changes in strict reverse order. -/
def undoWalkW (f : Factory) (w : WorldState) (cs : List Change) : WorldState :=
  cs.reverse.foldl (reverseChange f) w

/-- The world walk performed by `redo`: changes in original order. -/
def redoWalkW (f : Factory) (w : WorldState) (cs : List Change) : WorldState :=
  cs.foldl (applyChange f) w

/-- Source: `undo` — guarded pop of the latest transaction, reverse walk of
its changes under the `isExecutingUndo` flag (reset on every exit path by
the `finally` block), then push onto the redo stack. -/
def undo (f : Factory) (s : HMState) : Bool × HMState :=
  if s.undoStack.length = 0 ∨ s.isExecutingUndo = true ∨ s.isExecutingRedo = true then
    (false, s)
  else
    match s.undoStack.getLast? with
    | none => (false, s)
    | some t =>
      let s1 := { s with isExecutingUndo := true, undoStack := s.undoStack.dropLast }
      let s2 := { s1 with world := undoWalkW f s1.world t.changes }
      let s3 := { s2 with redoStack := s2.redoStack ++ [t] }
      (true, { s3 with isExecutingUndo := false })

/-- Source: `redo` — guarded pop of the latest redo transaction, forward
walk of its changes under the `isExecutingRedo` flag, then push back onto
the undo stack. -/
def redo (f : Factory) (s : HMState) : Bool × HMState :=
  if s.redoStack.length = 0 ∨ s.isExecutingUndo = true ∨ s.isExecutingRedo = true then
    (false, s)
  else
    match s.redoStack.getLast? with
    | none => (false, s)
    | some t =>
      let s1 := { s with isExecutingRedo := true, redoStack := s.redoStack.dropLast }
      let s2 := { s1 with world := redoWalkW f s1.world t.changes }
      let s3 := { s2 with undoStack := s2.undoStack ++ [t] }
      (true, { s3 with isExecutingRedo := false })

/-- Source: `clearHistory`. -/
def clearHistory (s : HMState) : HMState :=
  { s with undoStack := [], redoStack := [], currentTransaction := none,
           nextObjectId := 1,
           world := { s.world with trackedObjects := [] } }

/-- The save-format record produced by `serializeHistory` and consumed by
`deserializeHistory`; optional fields model absent JS properties. -/
structure HistoryData where
  undoStack : Option (List Transaction)
  redoStack : Option (List Transaction)
  nextObjectId : Option Nat
deriving DecidableEq, Repr

/-- Source: `serializeHistory`. -/
def serializeHistory (s : HMState) : HistoryData :=
  { undoStack := some s.undoStack, redoStack := some s.redoStack,
    nextObjectId := some s.nextObjectId }

/-- Source: `rebuildObjectTracking` — clear the map, then re-register every
live world object that carries an embedded `historyId`. -/
def rebuildObjectTracking (s : HMState) : HMState :=
  let rebuilt := s.world.createdObjects.foldl (fun m h =>
    match alGet s.world.heap h with
    | some o =>
      match o.userData.historyId with
      | some id => alSet m id h
      | none => m
    | none => m) []
  { s with world := { s.world with trackedObjects := rebuilt } }

/-- Source: `deserializeHistory` — on structurally valid data, replace both
stacks wholesale, restore the id counter (JS `|| 1` falsy fallback), and
rebuild object tracking from the current scene. -/
def deserializeHistory (s : HMState) (data : Option HistoryData) : HMState :=
  match data with
  | none => s
  | some d =>
    match d.undoStack, d.redoStack with
    | some us, some rs =>
      rebuildObjectTracking
        { s with undoStack := us, redoStack := rs,
                 nextObjectId :=
                   match d.nextObjectId with
                   | some n => if n = 0 then 1 else n
                   | none => 1 }
    | _, _ => s

/-- Source: `executeGroupedAction` — open, run the batch, always commit. -/
def executeGroupedAction (s : HMState) (label : String) (action : HMState → HMState) : HMState :=
  commitTransaction (action (startTransaction s label))

/-- The engine state built by the `HistoryManager` constructor, over an
empty world. -/
def initialState : HMState :=
  { undoStack := [], redoStack := [], maxHistorySize := 100,
    isExecutingUndo := false, isExecutingRedo := false, isRecording := true,
    currentTransaction := none, nextObjectId := 1,
    world := { heap := [], nextHandle := 0, trackedObjects := [],
               sceneChildren := [], createdObjects := [] } }

/-- Well-formedness of a world state: every held handle has been allocated
(is below `nextHandle`), tracked ids are unique (`Map` keys) and no two ids
track the same live object.  These hold for every world the engine builds:
handles are only minted by allocation, and an object embeds at most one
`historyId`. -/
def wfW (w : WorldState) : Prop :=
  (∀ h ∈ w.trackedObjects.map Prod.snd, h < w.nextHandle) ∧
  (∀ h ∈ w.createdObjects, h < w.nextHandle) ∧
  (∀ h ∈ w.sceneChildren, h < w.nextHandle) ∧
  (w.trackedObjects.map Prod.fst).Nodup ∧
  (w.trackedObjects.map Prod.snd).Nodup

instance (w : WorldState) : Decidable (wfW w) := by
  unfold wfW
  infer_instance

/-- Observation of one tracked id: the observables of the object it resolves
to, together with its membership in `createdObjects` and in the scene.  Two
worlds that agree on `lookupFull` for every id (plus container sizes) are
observably identical in the sense of the round-trip law. -/
def lookupFull (w : WorldState) (id : String) : Option (Option ObsObj × Bool × Bool) :=
  (alGet w.trackedObjects id).map fun h =>
    (observe w h, decide (h ∈ w.createdObjects), decide (h ∈ w.sceneChildren))

/-- Observable equivalence of world states: same tracked-object count and
membership, same container sizes, and identical observables for every
tracked id. -/
def simW (w1 w2 : WorldState) : Prop :=
  w1.trackedObjects.length = w2.trackedObjects.length ∧
  w1.createdObjects.length = w2.createdObjects.length ∧
  w1.sceneChildren.length = w2.sceneChildren.length ∧
  ∀ id, lookupFull w1 id = lookupFull w2 id

/-- Observables of the object `restoreObjectFromSnapshot` would restore, or
`none` when the factory fails on the snapshot's descriptor. -/
def reconObs (f : Factory) (snap : Snapshot) : Option ObsObj :=
  (reconstructObj f snap).map objObs

/-- Optional transform application, as `reverseTransform`/`applyTransform`
perform it on a resolved object: a missing endpoint leaves the object
untouched. -/
def applyXformOpt (ox : Option Xform) (o : Obj) : Obj :=
  match ox with
  | none => o
  | some x => { o with position := x.pos, rotation := x.rot, scl := x.scl }

/-- The transform triple currently stored on an object. -/
def xformOf (o : Obj) : Xform :=
  { pos := o.position, rot := o.rotation, scl := o.scl }

/-- Coherence of one change with a world state: the world already reflects
the change's forward (`next`/`new`) data, which is exactly the situation
produced by recording the change and committing it.  For `create`, the
tracked object must look like the reconstruction of its snapshot and sit in
both containers; for `delete`, the id must be gone; for `xform`/`prop`, the
resolved object must be a fixed point of undoing then redoing the edit. -/
def changeCoherentB (f : Factory) (w : WorldState) : Change → Bool
  | .create id snap =>
    (id == snap.id) &&
    (match alGet w.trackedObjects id with
     | none => false
     | some h =>
       decide (h ∈ w.createdObjects) && decide (h ∈ w.sceneChildren) &&
       (match reconObs f snap, observe w h with
        | some a, some b => decide (a = b)
        | _, _ => false))
  | .delete id snap => (id == snap.id) && (alGet w.trackedObjects id).isNone
  | .xform id prev next =>
    match alGet w.trackedObjects id with
    | none => true
    | some h =>
      match alGet w.heap h with
      | none => true
      | some o =>
        decide (applyXformOpt next (applyXformOpt prev o) = o)
  | .prop id key prev next =>
    match alGet w.trackedObjects id with
    | none => true
    | some h =>
      match alGet w.heap h with
      | none => true
      | some o =>
        decide (setObjectProperty (setObjectProperty o key prev) key next = o)

/-- Coherence of a change list: each change is coherent with the world
obtained by undoing the changes after it (the state at which the undo walk
reaches it). -/
def changesCoherentB (f : Factory) (w : WorldState) : List Change → Bool
  | [] => true
  | c :: rest =>
    changeCoherentB f (undoWalkW f w rest) c && changesCoherentB f w rest

/-- The public operations of the transaction-lifecycle API, used to state
state-global invariants over arbitrary operation sequences. -/
inductive Op where
  | startTransaction (label : String)
  | addChange (c : Change)
  | recordCreation (h : Nat)
  | recordDeletion (h : Nat) (snap : Option Snapshot)
  | recordTransform (h : Nat) (prev next : Option Xform)
  | recordProperty (h : Nat) (key : String) (prev next : PropVal)
  | commitTransaction
  | startCoalescing (label : String)
  | stopCoalescing
  | undo
  | redo
  | clearHistory

/-- Interpreter for one public operation. -/
def runOp (f : Factory) (s : HMState) : Op → HMState
  | .startTransaction label => startTransaction s label
  | .addChange c => addChange s c
  | .recordCreation h => recordObjectCreation s h
  | .recordDeletion h snap => recordObjectDeletion s h snap
  | .recordTransform h p n => recordTransformChange s h p n
  | .recordProperty h k p n => recordPropertyChange s h k p n
  | .commitTransaction => commitTransaction s
  | .startCoalescing label => startCoalescing s label
  | .stopCoalescing => stopCoalescing s
  | .undo => (undo f s).2
  | .redo => (redo f s).2
  | .clearHistory => clearHistory s

/-- Interpreter for a sequence of public operations. -/
def runOps (f : Factory) (s : HMState) (ops : List Op) : HMState :=
  ops.foldl (runOp f) s

/-- One interactive edit inside a coalescing window, as performed by the
call sites described in the specification: mutate the live object, then
report the change. -/
inductive Edit where
  | prop (h : Nat) (key : String) (next : PropVal)
  | xform (h : Nat) (next : Xform)
deriving DecidableEq, Repr

/-- Current value of a settable property, as a caller reads it to supply the
`prev` argument of `recordPropertyChange`. -/
def readPropVal (o : Obj) (key : String) : Option PropVal :=
  if key = "color" then (o.material.bind fun m => m.color).map PropVal.num
  else if key = "visible" then some (PropVal.flag o.visible)
  else if key = "name" then o.userData.name.map PropVal.str
  else none

/-- Modelled from the spec (section 4.3 collaborator contract): a call site
performing one interactive edit reads the current value as `prev`, applies
the mutation to the live object, and reports it through the recording API.
This is the caller-side protocol of `recordPropertyChange` and
`recordTransformChange`; it is not itself code of `historyManager.js`. -/
def doEdit (s : HMState) : Edit → HMState
  | .prop h key next =>
    match alGet s.world.heap h with
    | none => s
    | some o =>
      match readPropVal o key with
      | none => s
      | some prev =>
        let s1 := { s with world := { s.world with
          heap := alSet s.world.heap h (setObjectProperty o key next) } }
        recordPropertyChange s1 h key prev next
  | .xform h next =>
    match alGet s.world.heap h with
    | none => s
    | some o =>
      let prev : Xform := { pos := o.position, rot := o.rotation, scl := o.scl }
      let o' := { o with position := next.pos, rotation := next.rot, scl := next.scl }
      let s1 := { s with world := { s.world with heap := alSet s.world.heap h o' } }
      recordTransformChange s1 h (some prev) (some next)

/-- An edit is well formed at a world when its object is live, already
carries an embedded id under which it is tracked, and (for property edits)
its current value is readable. -/
def editOKB (w : WorldState) : Edit → Bool
  | .xform h _ =>
    match alGet w.heap h with
    | none => false
    | some o =>
      match o.userData.historyId with
      | none => false
      | some id => alGet w.trackedObjects id == some h
  | .prop h key _ =>
    match alGet w.heap h with
    | none => false
    | some o =>
      match o.userData.historyId with
      | none => false
      | some id =>
        (alGet w.trackedObjects id == some h) && (readPropVal o key).isSome

/-- Action of `setObjectProperty` on the observable projection: the color is
written only when a material is present, visibility is always written, and
a name write is unobservable. -/
def obsSetProperty (b : ObsObj) (key : String) (v : PropVal) : ObsObj :=
  if key = "color" then
    match v with
    | PropVal.num c => if b.hasMaterial then { b with color := some c } else b
    | _ => b
  else if key = "visible" then
    match v with
    | PropVal.flag vb => { b with visible := vb }
    | _ => b
  else b

/-- Compatibility of a mutated object with its pre-window original: the
embedded id and the presence of material, color and name are stable under
every interactive edit, so edit wellformedness transports along a window. -/
def objCompat (o0 o1 : Obj) : Prop :=
  o1.userData.historyId = o0.userData.historyId ∧
  o1.material.isSome = o0.material.isSome ∧
  (o1.material.bind fun m => m.color).isSome =
    (o0.material.bind fun m => m.color).isSome ∧
  o1.userData.name.isSome = o0.userData.name.isSome

/-- Pointwise heap compatibility along a coalescing window. -/
def heapCompat (h0 h1 : List (Nat × Obj)) : Prop :=
  ∀ h, (alGet h0 h = none ∧ alGet h1 h = none) ∨
       (∃ o0 o1, alGet h0 h = some o0 ∧ alGet h1 h = some o1 ∧ objCompat o0 o1)

/-- Invariant of a coalescing window opened at state `s` under `label`: the
bookkeeping is untouched, the open transaction holds exactly the changes
recorded so far, the world differs from the pre-window world only in
compatible heap mutations, and reversing the recorded changes restores the
pre-window world exactly. -/
def windowInv (f : Factory) (s : HMState) (label : String) (σ : HMState)
    (cs : List Change) : Prop :=
  σ.undoStack = s.undoStack ∧
  σ.redoStack = s.redoStack ∧
  σ.maxHistorySize = s.maxHistorySize ∧
  σ.isExecutingUndo = false ∧
  σ.isExecutingRedo = false ∧
  σ.isRecording = true ∧
  σ.currentTransaction = some { label := label, changes := cs } ∧
  σ.world.trackedObjects = s.world.trackedObjects ∧
  σ.world.sceneChildren = s.world.sceneChildren ∧
  σ.world.createdObjects = s.world.createdObjects ∧
  σ.world.nextHandle = s.world.nextHandle ∧
  heapCompat s.world.heap σ.world.heap ∧
  undoWalkW f σ.world cs = s.world

/-- A demo factory for concrete instantiations: it can build one kind of
object, a green cube. -/
def cubeObj : Obj :=
  { position := ⟨0, 0, 0⟩, rotation := ⟨0, 0, 0⟩, scl := ⟨1, 1, 1⟩,
    visible := true,
    material := some { color := some 65280, transparent := false, opacity := 1 },
    userData := { historyId := none, shapeType := some ("cube"),
                  assetType := none, description := none, name := some ("Cube") } }

/-- Demo factory used by concrete witnesses. -/
def demoFactory : Factory :=
  { createShape := fun k => if k = "cube" then some cubeObj else none,
    createAsset := fun _ => none,
    createFromDescription := fun _ => none }

/-- Demo user data of a snapshotted cube carrying id `obj_1`. -/
def demoUserData : UserData :=
  { historyId := some ("obj_1"), shapeType := some ("cube"),
    assetType := none, description := none, name := some ("Cube") }

/-- Demo snapshot of the cube at the origin. -/
def demoSnapshot : Snapshot :=
  { id := "obj_1", position := ⟨0, 0, 0⟩, rotation := ⟨0, 0, 0⟩,
    scl := ⟨1, 1, 1⟩, userData := demoUserData, visible := true,
    material := some { color := some 65280, transparent := false, opacity := 1 } }

/-- The live cube exactly as `restoreObjectFromSnapshot` would rebuild it
from `demoSnapshot`. -/
def demoObj : Obj :=
  applySnapshotTo demoSnapshot cubeObj

/-- Demo world holding the tracked cube at handle 0. -/
def demoWorld : WorldState :=
  { heap := [(0, demoObj)], nextHandle := 1, trackedObjects := [("obj_1", 0)],
    sceneChildren := [0], createdObjects := [0] }

/-- Demo transaction recording the cube's creation. -/
def demoTxn : Transaction :=
  { label := "Create cube", changes := [Change.create ("obj_1") demoSnapshot] }

/-- Demo engine state: the cube exists and its creation is undoable. -/
def demoState : HMState :=
  { initialState with undoStack := [demoTxn], nextObjectId := 2, world := demoWorld }

/-- Engine state captured in the middle of an undo walk. -/
def guardState : HMState :=
  { initialState with isExecutingUndo := true }

/-- Demo transform endpoint used by concrete witnesses. -/
def demoXform : Xform :=
  { pos := ⟨1, 1, 1⟩, rot := ⟨0, 0, 0⟩, scl := ⟨1, 1, 1⟩ }

/-- Demo move transaction used by concrete witnesses. -/
def moveTxn : Transaction :=
  { label := "Move", changes := [Change.xform ("obj_1") (some demoXform) none] }

/-- Demo engine state whose undo stack is at capacity with a non-empty open
transaction, so that the next commit must evict. -/
def fullState : HMState :=
  { demoState with maxHistorySize := 2, undoStack := [demoTxn, demoTxn],
                   currentTransaction := some moveTxn }

/-! Association-list toolkit lemmas. -/

theorem alGet_alSet_self {α β : Type} [DecidableEq α] (l : List (α × β)) (k : α) (v : β) :
    alGet (alSet l k v) k = some v := by
  induction l with
  | nil => simp [alGet, alSet]
  | cons p rest ih =>
    obtain ⟨k', v'⟩ := p
    by_cases h : k' = k
    · subst h; simp [alGet, alSet]
    · simp [alGet, alSet, h, ih]

theorem alGet_alSet_ne {α β : Type} [DecidableEq α] (l : List (α × β)) (k k' : α) (v : β)
    (h : k' ≠ k) : alGet (alSet l k v) k' = alGet l k' := by
  have h' : k ≠ k' := Ne.symm h
  induction l with
  | nil => simp [alGet, alSet, h']
  | cons p rest ih =>
    obtain ⟨k₀, v₀⟩ := p
    by_cases hk : k₀ = k
    · subst hk
      simp [alGet, alSet, h']
    · by_cases hk' : k₀ = k'
      · subst hk'; simp [alGet, alSet, hk]
      · simp [alGet, alSet, hk, hk', ih]

theorem alSet_eq_of_get {α β : Type} [DecidableEq α] (l : List (α × β)) (k : α) (v : β)
    (h : alGet l k = some v) : alSet l k v = l := by
  induction l with
  | nil => simp [alGet] at h
  | cons p rest ih =>
    obtain ⟨k₀, v₀⟩ := p
    by_cases hk : k₀ = k
    · subst hk
      simp [alGet] at h
      simp [alSet, h]
    · simp [alGet, hk] at h
      simp [alSet, hk, ih h]

theorem alSet_alSet {α β : Type} [DecidableEq α] (l : List (α × β)) (k : α) (a b : β) :
    alSet (alSet l k a) k b = alSet l k b := by
  induction l with
  | nil => simp [alSet]
  | cons p rest ih =>
    obtain ⟨k₀, v₀⟩ := p
    by_cases hk : k₀ = k
    · subst hk; simp [alSet]
    · simp [alSet, hk, ih]

theorem alGet_eq_none_iff {α β : Type} [DecidableEq α] (l : List (α × β)) (k : α) :
    alGet l k = none ↔ k ∉ l.map Prod.fst := by
  induction l with
  | nil => simp [alGet]
  | cons p rest ih =>
    obtain ⟨k₀, v₀⟩ := p
    by_cases hk : k₀ = k
    · subst hk; simp [alGet]
    · simp [alGet, hk, ih, Ne.symm hk]

theorem alSet_of_not_mem {α β : Type} [DecidableEq α] (l : List (α × β)) (k : α) (v : β)
    (h : k ∉ l.map Prod.fst) : alSet l k v = l ++ [(k, v)] := by
  induction l with
  | nil => simp [alSet]
  | cons p rest ih =>
    obtain ⟨k₀, v₀⟩ := p
    simp only [List.map_cons, List.mem_cons] at h
    push_neg at h
    simp [alSet, Ne.symm h.1, ih h.2]

theorem alGet_alDel_self {α β : Type} [DecidableEq α] (l : List (α × β)) (k : α) :
    alGet (alDel l k) k = none := by
  induction l with
  | nil => simp [alGet, alDel]
  | cons p rest ih =>
    obtain ⟨k₀, v₀⟩ := p
    by_cases hk : k₀ = k
    · subst hk; simp [alDel, ih]
    · simp [alGet, alDel, hk, ih]

theorem alGet_alDel_ne {α β : Type} [DecidableEq α] (l : List (α × β)) (k k' : α)
    (h : k' ≠ k) : alGet (alDel l k) k' = alGet l k' := by
  have h' : k ≠ k' := Ne.symm h
  induction l with
  | nil => simp [alDel]
  | cons p rest ih =>
    obtain ⟨k₀, v₀⟩ := p
    by_cases hk : k₀ = k
    · subst hk
      simp [alGet, alDel, ih, h']
    · by_cases hk' : k₀ = k'
      · subst hk'; simp [alGet, alDel, hk]
      · simp [alGet, alDel, hk, hk', ih]

theorem alDel_of_not_mem {α β : Type} [DecidableEq α] (l : List (α × β)) (k : α)
    (h : k ∉ l.map Prod.fst) : alDel l k = l := by
  induction l with
  | nil => simp [alDel]
  | cons p rest ih =>
    obtain ⟨k₀, v₀⟩ := p
    simp only [List.map_cons, List.mem_cons] at h
    push_neg at h
    simp [alDel, Ne.symm h.1, ih h.2]

theorem alDel_sublist {α β : Type} [DecidableEq α] (l : List (α × β)) (k : α) :
    (alDel l k).Sublist l := by
  induction l with
  | nil => simp [alDel]
  | cons p rest ih =>
    obtain ⟨k₀, v₀⟩ := p
    by_cases hk : k₀ = k
    · rw [show alDel ((k₀, v₀) :: rest) k = alDel rest k from by simp [alDel, hk]]
      exact ih.cons (k₀, v₀)
    · rw [show alDel ((k₀, v₀) :: rest) k = (k₀, v₀) :: alDel rest k from by simp [alDel, hk]]
      exact ih.cons₂ (k₀, v₀)

theorem length_alDel_of_get {α β : Type} [DecidableEq α] (l : List (α × β)) (k : α) (v : β)
    (hnd : (l.map Prod.fst).Nodup) (h : alGet l k = some v) :
    (alDel l k).length + 1 = l.length := by
  induction l with
  | nil => simp [alGet] at h
  | cons p rest ih =>
    obtain ⟨k₀, v₀⟩ := p
    simp only [List.map_cons, List.nodup_cons] at hnd
    by_cases hk : k₀ = k
    · subst hk
      have : alDel ((k₀, v₀) :: rest) k₀ = alDel rest k₀ := by simp [alDel]
      rw [this, alDel_of_not_mem rest k₀ hnd.1]
      simp
    · simp only [alGet, if_neg hk] at h
      simp [alDel, hk, ih hnd.2 h]

theorem length_alSet_of_get {α β : Type} [DecidableEq α] (l : List (α × β)) (k : α) (v v' : β)
    (h : alGet l k = some v') : (alSet l k v).length = l.length := by
  induction l with
  | nil => simp [alGet] at h
  | cons p rest ih =>
    obtain ⟨k₀, v₀⟩ := p
    by_cases hk : k₀ = k
    · subst hk; simp [alSet]
    · simp only [alGet, if_neg hk] at h
      simp [alSet, hk, ih h]

theorem keys_alSet_of_get {α β : Type} [DecidableEq α] (l : List (α × β)) (k : α) (v v' : β)
    (h : alGet l k = some v') : (alSet l k v).map Prod.fst = l.map Prod.fst := by
  induction l with
  | nil => simp [alGet] at h
  | cons p rest ih =>
    obtain ⟨k₀, v₀⟩ := p
    by_cases hk : k₀ = k
    · subst hk; simp [alSet]
    · simp only [alGet, if_neg hk] at h
      simp [alSet, hk, ih h]

theorem keys_alDel {α β : Type} [DecidableEq α] (l : List (α × β)) (k : α) :
    (alDel l k).map Prod.fst = (l.map Prod.fst).filter (fun x => x ≠ k) := by
  induction l with
  | nil => simp [alDel]
  | cons p rest ih =>
    obtain ⟨k₀, v₀⟩ := p
    by_cases hk : k₀ = k
    · subst hk; simp [alDel, ih]
    · simp [alDel, hk, ih, List.filter_cons]

theorem removeFirst_of_not_mem (l : List Nat) (a : Nat) (h : a ∉ l) :
    removeFirst l a = l := by
  induction l with
  | nil => simp [removeFirst]
  | cons x rest ih =>
    simp only [List.mem_cons] at h
    push_neg at h
    simp [removeFirst, Ne.symm h.1, ih h.2]

theorem removeFirst_append_last (l : List Nat) (a : Nat) (h : a ∉ l) :
    removeFirst (l ++ [a]) a = l := by
  induction l with
  | nil => simp [removeFirst]
  | cons x rest ih =>
    simp only [List.mem_cons] at h
    push_neg at h
    simp [removeFirst, Ne.symm h.1, ih h.2]

theorem length_removeFirst_of_mem (l : List Nat) (a : Nat) (h : a ∈ l) :
    (removeFirst l a).length + 1 = l.length := by
  induction l with
  | nil => simp at h
  | cons x rest ih =>
    by_cases hx : x = a
    · simp [removeFirst, hx]
    · have : a ∈ rest := by
        rcases List.mem_cons.mp h with h1 | h2
        · exact absurd h1.symm hx
        · exact h2
      simp [removeFirst, hx, ih this]

theorem mem_removeFirst_of_ne (l : List Nat) (a b : Nat) (h : b ≠ a) :
    b ∈ removeFirst l a ↔ b ∈ l := by
  induction l with
  | nil => simp [removeFirst]
  | cons x rest ih =>
    by_cases hx : x = a
    · subst hx
      simp [removeFirst, h]
    · simp [removeFirst, hx, ih]

theorem removeFirst_sublist (l : List Nat) (a : Nat) :
    (removeFirst l a).Sublist l := by
  induction l with
  | nil => simp [removeFirst]
  | cons x rest ih =>
    by_cases hx : x = a
    · rw [show removeFirst (x :: rest) a = rest from by simp [removeFirst, hx]]
      exact (List.Sublist.refl rest).cons x
    · rw [show removeFirst (x :: rest) a = x :: removeFirst rest a from by simp [removeFirst, hx]]
      exact ih.cons₂ x

/-! Bookkeeping-preservation lemmas for the recording entry points. -/

theorem getObjectId_bk (s : HMState) (h : Nat) :
    (getObjectId s h).2.undoStack = s.undoStack ∧
    (getObjectId s h).2.redoStack = s.redoStack ∧
    (getObjectId s h).2.maxHistorySize = s.maxHistorySize ∧
    (getObjectId s h).2.isExecutingUndo = s.isExecutingUndo ∧
    (getObjectId s h).2.isExecutingRedo = s.isExecutingRedo ∧
    (getObjectId s h).2.isRecording = s.isRecording ∧
    (getObjectId s h).2.currentTransaction = s.currentTransaction := by
  unfold getObjectId
  split
  · simp
  · split <;> simp [generateObjectId]

theorem createObjectSnapshot_state (s : HMState) (h : Nat) :
    (createObjectSnapshot s h).2 = (getObjectId s h).2 := by
  unfold createObjectSnapshot
  split
  rename_i id s1 hg
  split <;> simp [hg]

theorem addChange_bk (s : HMState) (c : Change) :
    (addChange s c).undoStack = s.undoStack ∧ (addChange s c).redoStack = s.redoStack ∧
    (addChange s c).maxHistorySize = s.maxHistorySize := by
  unfold addChange
  split
  · simp
  · rename_i hg
    cases hct : s.currentTransaction with
    | none => simp_all [startTransaction]
    | some t => simp [hct]

theorem recordObjectCreation_bk (s : HMState) (h : Nat) :
    (recordObjectCreation s h).undoStack = s.undoStack ∧
    (recordObjectCreation s h).redoStack = s.redoStack ∧
    (recordObjectCreation s h).maxHistorySize = s.maxHistorySize := by
  have hs := createObjectSnapshot_state s h
  have hg := getObjectId_bk s h
  rcases hc : createObjectSnapshot s h with ⟨osnap, s1⟩
  rw [hc] at hs
  unfold recordObjectCreation
  rw [hc]
  cases osnap with
  | some snap =>
    have h1 := addChange_bk s1 (Change.create snap.id snap)
    simp only []
    rw [h1.1, h1.2.1, h1.2.2, show s1 = (getObjectId s h).2 from hs]
    exact ⟨hg.1, hg.2.1, hg.2.2.1⟩
  | none =>
    simp only []
    rw [show s1 = (getObjectId s h).2 from hs]
    exact ⟨hg.1, hg.2.1, hg.2.2.1⟩

theorem recordObjectDeletion_bk (s : HMState) (h : Nat) (snapOverride : Option Snapshot) :
    (recordObjectDeletion s h snapOverride).undoStack = s.undoStack ∧
    (recordObjectDeletion s h snapOverride).redoStack = s.redoStack ∧
    (recordObjectDeletion s h snapOverride).maxHistorySize = s.maxHistorySize := by
  have hs := createObjectSnapshot_state s h
  have hg := getObjectId_bk s h
  rcases hc : createObjectSnapshot s h with ⟨osnap, s1⟩
  rw [hc] at hs
  unfold recordObjectDeletion
  cases snapOverride with
  | some snap => exact addChange_bk s (Change.delete snap.id snap)
  | none =>
    rw [hc]
    cases osnap with
    | some snap =>
      have h1 := addChange_bk s1 (Change.delete snap.id snap)
      simp only []
      rw [h1.1, h1.2.1, h1.2.2, show s1 = (getObjectId s h).2 from hs]
      exact ⟨hg.1, hg.2.1, hg.2.2.1⟩
    | none =>
      simp only []
      rw [show s1 = (getObjectId s h).2 from hs]
      exact ⟨hg.1, hg.2.1, hg.2.2.1⟩

theorem recordTransformChange_bk (s : HMState) (h : Nat) (prev next : Option Xform) :
    (recordTransformChange s h prev next).undoStack = s.undoStack ∧
    (recordTransformChange s h prev next).redoStack = s.redoStack ∧
    (recordTransformChange s h prev next).maxHistorySize = s.maxHistorySize := by
  have hg := getObjectId_bk s h
  rcases hi : getObjectId s h with ⟨id, s1⟩
  rw [hi] at hg
  unfold recordTransformChange
  rw [hi]
  have h1 := addChange_bk s1 (Change.xform id prev next)
  simp only []
  rw [h1.1, h1.2.1, h1.2.2]
  exact ⟨hg.1, hg.2.1, hg.2.2.1⟩

theorem recordPropertyChange_bk (s : HMState) (h : Nat) (key : String) (prev next : PropVal) :
    (recordPropertyChange s h key prev next).undoStack = s.undoStack ∧
    (recordPropertyChange s h key prev next).redoStack = s.redoStack ∧
    (recordPropertyChange s h key prev next).maxHistorySize = s.maxHistorySize := by
  have hg := getObjectId_bk s h
  rcases hi : getObjectId s h with ⟨id, s1⟩
  rw [hi] at hg
  unfold recordPropertyChange
  rw [hi]
  have h1 := addChange_bk s1 (Change.prop id key prev next)
  simp only []
  rw [h1.1, h1.2.1, h1.2.2]
  exact ⟨hg.1, hg.2.1, hg.2.2.1⟩

/-- C2: while an undo/redo walk is in progress, or while global recording is
disabled, every recording entry point (`recordObjectCreation`,
`recordObjectDeletion`, `recordTransformChange`, `recordPropertyChange`,
`addChange`) leaves both the undo stack and the redo stack unchanged, and
`startTransaction` refuses to open a transaction while a walk is in
progress. -/
theorem reentrancy_guard (s : HMState) :
    ((s.isExecutingUndo = true ∨ s.isExecutingRedo = true ∨ s.isRecording = false) →
      (∀ c, (addChange s c).undoStack = s.undoStack ∧
            (addChange s c).redoStack = s.redoStack) ∧
      (∀ h, (recordObjectCreation s h).undoStack = s.undoStack ∧
            (recordObjectCreation s h).redoStack = s.redoStack) ∧
      (∀ h snap, (recordObjectDeletion s h snap).undoStack = s.undoStack ∧
                 (recordObjectDeletion s h snap).redoStack = s.redoStack) ∧
      (∀ h p n, (recordTransformChange s h p n).undoStack = s.undoStack ∧
                (recordTransformChange s h p n).redoStack = s.redoStack) ∧
      (∀ h k p n, (recordPropertyChange s h k p n).undoStack = s.undoStack ∧
                  (recordPropertyChange s h k p n).redoStack = s.redoStack)) ∧
    ((s.isExecutingUndo = true ∨ s.isExecutingRedo = true) →
      ∀ label, startTransaction s label = s) := by
  constructor
  · intro _
    exact ⟨fun c => ⟨(addChange_bk s c).1, (addChange_bk s c).2.1⟩,
           fun h => ⟨(recordObjectCreation_bk s h).1, (recordObjectCreation_bk s h).2.1⟩,
           fun h snap => ⟨(recordObjectDeletion_bk s h snap).1,
                          (recordObjectDeletion_bk s h snap).2.1⟩,
           fun h p n => ⟨(recordTransformChange_bk s h p n).1,
                         (recordTransformChange_bk s h p n).2.1⟩,
           fun h k p n => ⟨(recordPropertyChange_bk s h k p n).1,
                           (recordPropertyChange_bk s h k p n).2.1⟩⟩
  · intro hw label
    unfold startTransaction
    rcases hw with hw | hw <;> simp [hw]

/-- Witness for C2 at a state in the middle of an undo walk. -/
theorem reentrancy_guard_witness :
    (guardState.isExecutingUndo = true ∨ guardState.isExecutingRedo = true ∨
      guardState.isRecording = false) ∧
    (addChange guardState (Change.create ("obj_1") demoSnapshot)).undoStack =
      guardState.undoStack ∧
    startTransaction guardState ("Drag") = guardState := by
  refine ⟨Or.inl rfl, ?_, ?_⟩
  · exact (((reentrancy_guard guardState).1 (Or.inl rfl)).1
      (Change.create ("obj_1") demoSnapshot)).1
  · exact (reentrancy_guard guardState).2 (Or.inl rfl) ("Drag")

/-- C3: committing an open transaction with at least one change pushes it
onto the undo stack (evicting the oldest entry when the capacity is
exceeded) and clears the redo stack; an absent or empty open transaction is
discarded and never pushed; in every case the open transaction becomes
`none`. -/
theorem commitTransaction_contract (s : HMState) :
    (∀ t, s.currentTransaction = some t → t.changes ≠ [] →
      commitTransaction s =
        { s with
          undoStack :=
            if (s.undoStack ++ [t]).length > s.maxHistorySize
            then (s.undoStack ++ [t]).drop 1 else s.undoStack ++ [t],
          redoStack := [], currentTransaction := none }) ∧
    ((s.currentTransaction = none ∨
      ∃ t, s.currentTransaction = some t ∧ t.changes = []) →
      commitTransaction s = { s with currentTransaction := none }) ∧
    (commitTransaction s).currentTransaction = none := by
  refine ⟨?_, ?_, ?_⟩
  · intro t ht hne
    unfold commitTransaction
    rw [ht]
    simp [List.length_eq_zero, hne]
  · intro hcase
    unfold commitTransaction
    rcases hcase with hnone | ⟨t, ht, hemp⟩
    · rw [hnone]
    · rw [ht]
      simp [hemp]
  · unfold commitTransaction
    rcases s.currentTransaction with _ | t
    · rfl
    · by_cases hl : t.changes.length = 0 <;> simp [hl]

/-- Witness for C3: a one-change transaction is pushed and the redo stack is
cleared. -/
theorem commitTransaction_contract_witness :
    commitTransaction
      { initialState with
        redoStack := [{ label := "old", changes := [Change.xform ("obj_1") none none] }],
        currentTransaction :=
          some { label := "Move", changes := [Change.xform ("obj_1") none none] } } =
      { initialState with
        undoStack := [{ label := "Move", changes := [Change.xform ("obj_1") none none] }],
        redoStack := [], currentTransaction := none } := by
  have h := (commitTransaction_contract
    { initialState with
      redoStack := [{ label := "old", changes := [Change.xform ("obj_1") none none] }],
      currentTransaction :=
        some { label := "Move", changes := [Change.xform ("obj_1") none none] } }).1
    { label := "Move", changes := [Change.xform ("obj_1") none none] } rfl (by simp)
  rw [h]
  simp [initialState]

/-- C9: committing when no transaction is open, or when the open transaction
has no changes, leaves the whole state unchanged apart from resetting the
open transaction to `none`; in particular the redo stack is not cleared. -/
theorem empty_commit_frame (s : HMState)
    (h : s.currentTransaction = none ∨
         ∃ t, s.currentTransaction = some t ∧ t.changes = []) :
    (commitTransaction s).undoStack = s.undoStack ∧
    (commitTransaction s).redoStack = s.redoStack ∧
    commitTransaction s = { s with currentTransaction := none } := by
  have heq : commitTransaction s = { s with currentTransaction := none } := by
    unfold commitTransaction
    rcases h with hnone | ⟨t, ht, hemp⟩
    · rw [hnone]
    · rw [ht]
      simp [hemp]
  rw [heq]
  exact ⟨rfl, rfl, rfl⟩

/-- Witness for C9: an empty open transaction is discarded without touching
the non-empty redo stack. -/
theorem empty_commit_frame_witness :
    (commitTransaction
      { initialState with
        redoStack := [{ label := "kept", changes := [] }],
        currentTransaction := some { label := "empty", changes := [] } }).redoStack =
      [{ label := "kept", changes := [] }] := by
  exact (empty_commit_frame
    { initialState with
      redoStack := [{ label := "kept", changes := [] }],
      currentTransaction := some { label := "empty", changes := [] } }
    (Or.inr ⟨{ label := "empty", changes := [] }, rfl, rfl⟩)).2.1

/-- C10: whenever `undo()` or `redo()` is entered from a non-executing
state, both executing flags are false again when the call returns (the
source resets them in a `finally` block, so every exit path of the walk is
covered); the engine is never left stuck in the Executing state. -/
theorem executing_flags_cleared (f : Factory) (s : HMState)
    (hu : s.isExecutingUndo = false) (hr : s.isExecutingRedo = false) :
    ((undo f s).2.isExecutingUndo = false ∧ (undo f s).2.isExecutingRedo = false) ∧
    ((redo f s).2.isExecutingUndo = false ∧ (redo f s).2.isExecutingRedo = false) := by
  constructor
  · unfold undo
    split
    · simp [hu, hr]
    · split
      · simp [hu, hr]
      · simp [hu, hr]
  · unfold redo
    split
    · simp [hu, hr]
    · split
      · simp [hu, hr]
      · simp [hu, hr]

/-- Witness for C10 at the initial state. -/
theorem executing_flags_cleared_witness :
    ((undo { createShape := fun _ => none, createAsset := fun _ => none,
             createFromDescription := fun _ => none } initialState).2.isExecutingUndo = false) ∧
    ((redo { createShape := fun _ => none, createAsset := fun _ => none,
             createFromDescription := fun _ => none } initialState).2.isExecutingRedo = false) := by
  have h := executing_flags_cleared
    { createShape := fun _ => none, createAsset := fun _ => none,
      createFromDescription := fun _ => none } initialState rfl rfl
  exact ⟨h.1.1, h.2.2⟩

/-! Deserialization: the rebuilt tracking map only links live objects. -/

theorem rebuild_foldl_sound (heap : List (Nat × Obj)) (hs : List Nat) :
    ∀ (m : List (String × Nat)) (id : String) (hh : Nat),
      alGet (hs.foldl (fun m h =>
        match alGet heap h with
        | some o =>
          match o.userData.historyId with
          | some i => alSet m i h
          | none => m
        | none => m) m) id = some hh →
      alGet m id = some hh ∨
        (hh ∈ hs ∧ ∃ o, alGet heap hh = some o ∧ o.userData.historyId = some id) := by
  induction hs with
  | nil => intro m id hh h; exact Or.inl h
  | cons x rest ih =>
    intro m id hh h
    simp only [List.foldl_cons] at h
    rcases ih _ id hh h with h1 | h2
    · split at h1
      · rename_i o hx
        split at h1
        · rename_i i hid
          by_cases hieq : id = i
          · subst hieq
            rw [alGet_alSet_self] at h1
            obtain rfl : x = hh := by injection h1
            exact Or.inr ⟨List.mem_cons_self x rest, o, hx, hid⟩
          · rw [alGet_alSet_ne _ _ _ _ hieq] at h1
            exact Or.inl h1
        · exact Or.inl h1
      · exact Or.inl h1
    · exact Or.inr ⟨List.mem_cons_of_mem x h2.1, h2.2⟩

/-- C8: on input data containing both stacks, `deserializeHistory` replaces
both stacks wholesale, restores the id counter (with the JS `|| 1` falsy
fallback), and rebuilds the tracked-object map solely by re-scanning the
currently-live world objects and matching their embedded `historyId`; it
never constructs objects itself — heap, handle counter, scene and
`createdObjects` are untouched, and every rebuilt binding points at an
already-live object embedding that id. -/
theorem deserializeHistory_contract (s : HMState) (d : HistoryData)
    (us rs : List Transaction) (hu : d.undoStack = some us) (hr : d.redoStack = some rs) :
    (deserializeHistory s (some d)).undoStack = us ∧
    (deserializeHistory s (some d)).redoStack = rs ∧
    (deserializeHistory s (some d)).nextObjectId =
      (match d.nextObjectId with
       | some n => if n = 0 then 1 else n
       | none => 1) ∧
    (deserializeHistory s (some d)).world.heap = s.world.heap ∧
    (deserializeHistory s (some d)).world.nextHandle = s.world.nextHandle ∧
    (deserializeHistory s (some d)).world.createdObjects = s.world.createdObjects ∧
    (deserializeHistory s (some d)).world.sceneChildren = s.world.sceneChildren ∧
    (deserializeHistory s (some d)).world.trackedObjects =
      s.world.createdObjects.foldl (fun m h =>
        match alGet s.world.heap h with
        | some o =>
          match o.userData.historyId with
          | some id => alSet m id h
          | none => m
        | none => m) [] ∧
    (∀ id hh, alGet (deserializeHistory s (some d)).world.trackedObjects id = some hh →
      hh ∈ s.world.createdObjects ∧
      ∃ o, alGet s.world.heap hh = some o ∧ o.userData.historyId = some id) := by
  obtain ⟨du, dr, dn⟩ := d
  simp only [] at hu hr
  subst hu
  subst hr
  have hds : deserializeHistory s
        (some { undoStack := some us, redoStack := some rs, nextObjectId := dn }) =
      rebuildObjectTracking
        { s with undoStack := us, redoStack := rs,
                 nextObjectId :=
                   match dn with
                   | some n => if n = 0 then 1 else n
                   | none => 1 } := rfl
  rw [hds]
  unfold rebuildObjectTracking
  refine ⟨rfl, rfl, rfl, rfl, rfl, rfl, rfl, rfl, ?_⟩
  intro id hh h
  simp only [] at h
  rcases rebuild_foldl_sound s.world.heap s.world.createdObjects [] id hh h with h1 | h2
  · simp [alGet] at h1
  · exact ⟨h2.1, h2.2⟩

/-- Witness for C8: deserializing a one-transaction history over the demo
world re-links the cube. -/
theorem deserializeHistory_contract_witness :
    (deserializeHistory demoState
      (some { undoStack := some [demoTxn], redoStack := some [],
              nextObjectId := some 2 })).undoStack = [demoTxn] ∧
    (deserializeHistory demoState
      (some { undoStack := some [demoTxn], redoStack := some [],
              nextObjectId := some 2 })).world.heap = demoState.world.heap := by
  have h := deserializeHistory_contract demoState
    { undoStack := some [demoTxn], redoStack := some [], nextObjectId := some 2 }
    [demoTxn] [] rfl rfl
  exact ⟨h.1, h.2.2.2.1⟩

/-! Characterization of the undo/redo entry points. -/

theorem undo_noop (f : Factory) (s : HMState)
    (h : s.undoStack = [] ∨ s.isExecutingUndo = true ∨ s.isExecutingRedo = true) :
    undo f s = (false, s) := by
  unfold undo
  rcases h with h | h | h
  · simp [h]
  · simp [h]
  · simp [h]

theorem redo_noop (f : Factory) (s : HMState)
    (h : s.redoStack = [] ∨ s.isExecutingUndo = true ∨ s.isExecutingRedo = true) :
    redo f s = (false, s) := by
  unfold redo
  rcases h with h | h | h
  · simp [h]
  · simp [h]
  · simp [h]

theorem undo_success (f : Factory) (s : HMState) (init : List Transaction) (t : Transaction)
    (hstack : s.undoStack = init ++ [t])
    (hu : s.isExecutingUndo = false) (hr : s.isExecutingRedo = false) :
    undo f s = (true,
      { s with undoStack := init, redoStack := s.redoStack ++ [t],
               world := undoWalkW f s.world t.changes }) := by
  unfold undo
  rw [hstack, hu, hr]
  rw [if_neg (by simp)]
  rw [List.getLast?_concat]
  simp only [List.dropLast_concat]

theorem redo_success (f : Factory) (s : HMState) (init : List Transaction) (t : Transaction)
    (hstack : s.redoStack = init ++ [t])
    (hu : s.isExecutingUndo = false) (hr : s.isExecutingRedo = false) :
    redo f s = (true,
      { s with redoStack := init, undoStack := s.undoStack ++ [t],
               world := redoWalkW f s.world t.changes }) := by
  unfold redo
  rw [hstack, hu, hr]
  rw [if_neg (by simp)]
  rw [List.getLast?_concat]
  simp only [List.dropLast_concat]

/-- C4: `undo()` returns failure leaving the state untouched when the undo
stack is empty or a walk is already in progress; otherwise it pops the most
recent transaction, walks its changes in strict reverse order through the
per-kind reverse-handlers (create removes, delete reconstructs from
`snapshotOld`, transform and property re-apply `prev`), pushes the popped
transaction onto the redo stack and returns success. -/
theorem undo_contract (f : Factory) (s : HMState) :
    ((s.undoStack = [] ∨ s.isExecutingUndo = true ∨ s.isExecutingRedo = true) →
      undo f s = (false, s)) ∧
    (∀ init t, s.undoStack = init ++ [t] →
      s.isExecutingUndo = false → s.isExecutingRedo = false →
      undo f s = (true,
        { s with undoStack := init, redoStack := s.redoStack ++ [t],
                 world := (t.changes.reverse).foldl (reverseChange f) s.world })) ∧
    (∀ w id snap, reverseChange f w (Change.create id snap) = reverseCreate w id) ∧
    (∀ w id snap, reverseChange f w (Change.delete id snap) = reverseDelete f w snap) ∧
    (∀ w id p n, reverseChange f w (Change.xform id p n) = reverseTransform w id p) ∧
    (∀ w id k p n, reverseChange f w (Change.prop id k p n) = reverseProperty w id k p) := by
  refine ⟨undo_noop f s, ?_, ?_, ?_, ?_, ?_⟩
  · intro init t hstack hu hr
    exact undo_success f s init t hstack hu hr
  · intro w id snap; rfl
  · intro w id snap; rfl
  · intro w id p n; rfl
  · intro w id k p n; rfl

/-- Witness for C4: undoing the demo creation pops the transaction, removes
the cube and moves the transaction to the redo stack. -/
theorem undo_contract_witness :
    (undo demoFactory demoState).1 = true ∧
    (undo demoFactory demoState).2.undoStack = [] ∧
    (undo demoFactory demoState).2.redoStack = [demoTxn] ∧
    (undo demoFactory demoState).2.world =
      (demoTxn.changes.reverse).foldl (reverseChange demoFactory) demoState.world := by
  have h := (undo_contract demoFactory demoState).2.1 [] demoTxn rfl rfl rfl
  rw [h]
  exact ⟨rfl, rfl, rfl, rfl⟩

/-- C7: a change whose id does not resolve to a tracked object is skipped as
a non-fatal no-op by every resolving handler, in both walk directions; and
the walk itself always completes — every change of the popped transaction is
visited and the transaction still moves to the opposite stack, regardless of
resolution failures. -/
theorem missing_object_tolerance (f : Factory) (s : HMState) :
    (∀ w id snap p n k pv nv, alGet w.trackedObjects id = none →
      reverseChange f w (Change.create id snap) = w ∧
      reverseChange f w (Change.xform id p n) = w ∧
      reverseChange f w (Change.prop id k pv nv) = w ∧
      applyChange f w (Change.delete id snap) = w ∧
      applyChange f w (Change.xform id p n) = w ∧
      applyChange f w (Change.prop id k pv nv) = w) ∧
    (∀ init t, s.undoStack = init ++ [t] →
      s.isExecutingUndo = false → s.isExecutingRedo = false →
      (undo f s).1 = true ∧
      (undo f s).2.undoStack = init ∧
      (undo f s).2.redoStack = s.redoStack ++ [t] ∧
      (undo f s).2.world = undoWalkW f s.world t.changes) ∧
    (∀ init t, s.redoStack = init ++ [t] →
      s.isExecutingUndo = false → s.isExecutingRedo = false →
      (redo f s).1 = true ∧
      (redo f s).2.redoStack = init ∧
      (redo f s).2.undoStack = s.undoStack ++ [t] ∧
      (redo f s).2.world = redoWalkW f s.world t.changes) := by
  refine ⟨?_, ?_, ?_⟩
  · intro w id snap p n k pv nv hmiss
    refine ⟨?_, ?_, ?_, ?_, ?_, ?_⟩
    · show reverseCreate w id = w
      unfold reverseCreate
      rw [hmiss]
    · show reverseTransform w id p = w
      unfold reverseTransform
      rw [hmiss]
    · show reverseProperty w id k pv = w
      unfold reverseProperty
      rw [hmiss]
    · show applyDelete w id = w
      unfold applyDelete
      rw [hmiss]
    · show applyTransform w id n = w
      unfold applyTransform
      rw [hmiss]
    · show applyProperty w id k nv = w
      unfold applyProperty
      rw [hmiss]
  · intro init t hstack hu hr
    rw [undo_success f s init t hstack hu hr]
    exact ⟨rfl, rfl, rfl, rfl⟩
  · intro init t hstack hu hr
    rw [redo_success f s init t hstack hu hr]
    exact ⟨rfl, rfl, rfl, rfl⟩

/-- Witness for C7: undoing a transaction whose single change names an
untracked id still completes and moves the transaction to the redo stack. -/
theorem missing_object_tolerance_witness :
    (reverseChange demoFactory demoWorld
      (Change.xform ("ghost") (some demoXform) none) = demoWorld) ∧
    (undo demoFactory demoState).1 = true ∧
    (undo demoFactory demoState).2.redoStack = [demoTxn] := by
  have h1 := ((missing_object_tolerance demoFactory demoState).1
    demoWorld ("ghost") demoSnapshot (some demoXform) none
    ("color") (PropVal.num 0) (PropVal.num 0) (by decide)).2.1
  have h2 := (missing_object_tolerance demoFactory demoState).2.1 [] demoTxn rfl rfl rfl
  exact ⟨h1, h2.1, h2.2.2.1⟩

/-! Bounded-history invariant machinery. -/

theorem startTransaction_bk (s : HMState) (label : String) :
    (startTransaction s label).undoStack = s.undoStack ∧
    (startTransaction s label).redoStack = s.redoStack ∧
    (startTransaction s label).maxHistorySize = s.maxHistorySize := by
  unfold startTransaction
  split <;> simp

theorem commit_discard (s : HMState)
    (h : s.currentTransaction = none ∨
         ∃ t, s.currentTransaction = some t ∧ t.changes = []) :
    commitTransaction s = { s with currentTransaction := none } := by
  unfold commitTransaction
  rcases h with hnone | ⟨t, ht, hemp⟩
  · rw [hnone]
  · rw [ht]
    simp [hemp]

theorem commit_push (s : HMState) (t : Transaction)
    (hct : s.currentTransaction = some t) (hne : t.changes ≠ []) :
    commitTransaction s =
      { s with
        undoStack :=
          if (s.undoStack ++ [t]).length > s.maxHistorySize
          then (s.undoStack ++ [t]).drop 1 else s.undoStack ++ [t],
        redoStack := [], currentTransaction := none } := by
  unfold commitTransaction
  rw [hct]
  simp [List.length_eq_zero, hne]

theorem commitTransaction_inv (s : HMState)
    (h : s.undoStack.length + s.redoStack.length ≤ s.maxHistorySize) :
    (commitTransaction s).undoStack.length + (commitTransaction s).redoStack.length ≤
      (commitTransaction s).maxHistorySize := by
  cases hct : s.currentTransaction with
  | none =>
    rw [commit_discard s (Or.inl hct)]
    exact h
  | some t =>
    by_cases hne : t.changes = []
    · rw [commit_discard s (Or.inr ⟨t, hct, hne⟩)]
      exact h
    · rw [commit_push s t hct hne]
      show (if (s.undoStack ++ [t]).length > s.maxHistorySize
            then (s.undoStack ++ [t]).drop 1 else s.undoStack ++ [t]).length +
           ([] : List Transaction).length ≤ s.maxHistorySize
      split
      · rename_i hover
        rw [List.length_drop]
        simp only [List.length_append, List.length_singleton, List.length_nil]
        omega
      · rename_i hover
        simp only [List.length_append, List.length_singleton, List.length_nil] at hover ⊢
        omega

theorem undo_inv (f : Factory) (s : HMState)
    (h : s.undoStack.length + s.redoStack.length ≤ s.maxHistorySize) :
    (undo f s).2.undoStack.length + (undo f s).2.redoStack.length ≤
      (undo f s).2.maxHistorySize := by
  by_cases hno : s.undoStack = [] ∨ s.isExecutingUndo = true ∨ s.isExecutingRedo = true
  · rw [undo_noop f s hno]
    exact h
  · push_neg at hno
    obtain ⟨hne, hu, hr⟩ := hno
    have hu' : s.isExecutingUndo = false := by
      cases hb : s.isExecutingUndo
      · rfl
      · exact absurd hb hu
    have hr' : s.isExecutingRedo = false := by
      cases hb : s.isExecutingRedo
      · rfl
      · exact absurd hb hr
    have hdecomp : s.undoStack = s.undoStack.dropLast ++ [s.undoStack.getLast hne] :=
      (List.dropLast_append_getLast hne).symm
    rw [undo_success f s s.undoStack.dropLast (s.undoStack.getLast hne) hdecomp hu' hr']
    simp only [List.length_append, List.length_singleton]
    have : s.undoStack.dropLast.length + 1 = s.undoStack.length := by
      rw [hdecomp]
      simp
    omega

theorem redo_inv (f : Factory) (s : HMState)
    (h : s.undoStack.length + s.redoStack.length ≤ s.maxHistorySize) :
    (redo f s).2.undoStack.length + (redo f s).2.redoStack.length ≤
      (redo f s).2.maxHistorySize := by
  by_cases hno : s.redoStack = [] ∨ s.isExecutingUndo = true ∨ s.isExecutingRedo = true
  · rw [redo_noop f s hno]
    exact h
  · push_neg at hno
    obtain ⟨hne, hu, hr⟩ := hno
    have hu' : s.isExecutingUndo = false := by
      cases hb : s.isExecutingUndo
      · rfl
      · exact absurd hb hu
    have hr' : s.isExecutingRedo = false := by
      cases hb : s.isExecutingRedo
      · rfl
      · exact absurd hb hr
    have hdecomp : s.redoStack = s.redoStack.dropLast ++ [s.redoStack.getLast hne] :=
      (List.dropLast_append_getLast hne).symm
    rw [redo_success f s s.redoStack.dropLast (s.redoStack.getLast hne) hdecomp hu' hr']
    simp only [List.length_append, List.length_singleton]
    have : s.redoStack.dropLast.length + 1 = s.redoStack.length := by
      rw [hdecomp]
      simp
    omega

theorem runOp_inv (f : Factory) (s : HMState) (op : Op)
    (h : s.undoStack.length + s.redoStack.length ≤ s.maxHistorySize) :
    (runOp f s op).undoStack.length + (runOp f s op).redoStack.length ≤
      (runOp f s op).maxHistorySize := by
  cases op with
  | startTransaction label =>
    have hb := startTransaction_bk s label
    simp only [runOp]
    rw [hb.1, hb.2.1, hb.2.2]
    exact h
  | addChange c =>
    have hb := addChange_bk s c
    simp only [runOp]
    rw [hb.1, hb.2.1, hb.2.2]
    exact h
  | recordCreation hh =>
    have hb := recordObjectCreation_bk s hh
    simp only [runOp]
    rw [hb.1, hb.2.1, hb.2.2]
    exact h
  | recordDeletion hh snap =>
    have hb := recordObjectDeletion_bk s hh snap
    simp only [runOp]
    rw [hb.1, hb.2.1, hb.2.2]
    exact h
  | recordTransform hh p n =>
    have hb := recordTransformChange_bk s hh p n
    simp only [runOp]
    rw [hb.1, hb.2.1, hb.2.2]
    exact h
  | recordProperty hh k p n =>
    have hb := recordPropertyChange_bk s hh k p n
    simp only [runOp]
    rw [hb.1, hb.2.1, hb.2.2]
    exact h
  | commitTransaction => exact commitTransaction_inv s h
  | startCoalescing label =>
    simp only [runOp]
    unfold startCoalescing
    cases hct : s.currentTransaction with
    | none =>
      have hb := startTransaction_bk s label
      simp only []
      rw [hb.1, hb.2.1, hb.2.2]
      exact h
    | some t =>
      have hc := commitTransaction_inv s h
      have hb := startTransaction_bk (commitTransaction s) label
      simp only []
      rw [hb.1, hb.2.1, hb.2.2]
      exact hc
  | stopCoalescing => exact commitTransaction_inv s h
  | undo => exact undo_inv f s h
  | redo => exact redo_inv f s h
  | clearHistory =>
    simp only [runOp]
    simp [clearHistory]

theorem runOps_inv (f : Factory) (ops : List Op) :
    ∀ (s : HMState), s.undoStack.length + s.redoStack.length ≤ s.maxHistorySize →
      (runOps f s ops).undoStack.length + (runOps f s ops).redoStack.length ≤
        (runOps f s ops).maxHistorySize := by
  induction ops with
  | nil => intro s h; exact h
  | cons op rest ih =>
    intro s h
    exact ih (runOp f s op) (runOp_inv f s op h)

/-- C5: starting from the freshly constructed engine, no sequence of public
operations ever takes the undo stack past `maxHistorySize`; and when a
commit lands on a full stack, exactly the oldest transaction is evicted, the
newer entries survive unchanged and in order, and the stack stays at
capacity — so the evicted transaction is no longer an entry reachable by
popping (repeated `undo()`). -/
theorem bounded_history (f : Factory) :
    (∀ ops, (runOps f initialState ops).undoStack.length ≤
            (runOps f initialState ops).maxHistorySize) ∧
    (∀ s t, s.currentTransaction = some t → t.changes ≠ [] →
      s.undoStack.length = s.maxHistorySize → 0 < s.maxHistorySize →
      (commitTransaction s).undoStack = s.undoStack.tail ++ [t] ∧
      (commitTransaction s).undoStack.length = s.maxHistorySize ∧
      (∀ t0, t0 ∈ (commitTransaction s).undoStack →
        t0 ∈ s.undoStack.tail ∨ t0 = t)) := by
  constructor
  · intro ops
    have h := runOps_inv f ops initialState (by simp [initialState])
    omega
  · intro s t hct hne hfull hpos
    have hp := commit_push s t hct hne
    have hover : (s.undoStack ++ [t]).length > s.maxHistorySize := by
      simp only [List.length_append, List.length_singleton]
      omega
    have hdrop : (s.undoStack ++ [t]).drop 1 = s.undoStack.tail ++ [t] := by
      rw [List.drop_append_of_le_length (by omega), List.drop_one]
    have hstack : (commitTransaction s).undoStack = s.undoStack.tail ++ [t] := by
      rw [hp]
      show (if (s.undoStack ++ [t]).length > s.maxHistorySize
            then (s.undoStack ++ [t]).drop 1 else s.undoStack ++ [t]) =
           s.undoStack.tail ++ [t]
      rw [if_pos hover, hdrop]
    refine ⟨hstack, ?_, ?_⟩
    · rw [hstack]
      simp only [List.length_append, List.length_singleton, List.length_tail]
      omega
    · intro t0 ht0
      rw [hstack] at ht0
      rcases List.mem_append.mp ht0 with h1 | h2
      · exact Or.inl h1
      · right
        simpa using h2

/-- Witness for C5: one commit from the initial state stays within capacity,
and committing onto the full demo stack evicts exactly the oldest entry. -/
theorem bounded_history_witness :
    (runOps demoFactory initialState [Op.commitTransaction]).undoStack.length ≤
      (runOps demoFactory initialState [Op.commitTransaction]).maxHistorySize ∧
    (commitTransaction fullState).undoStack = [demoTxn, moveTxn] := by
  constructor
  · exact (bounded_history demoFactory).1 [Op.commitTransaction]
  · have h := (bounded_history demoFactory).2 fullState moveTxn rfl
      (by decide) rfl (by decide)
    rw [h.1]
    rfl

/-! Additional association-list lemmas used by the round-trip development. -/

theorem alGet_mem_snd {α β : Type} [DecidableEq α] (l : List (α × β)) (k : α) (v : β)
    (h : alGet l k = some v) : v ∈ l.map Prod.snd := by
  induction l with
  | nil => simp [alGet] at h
  | cons p rest ih =>
    obtain ⟨k₀, v₀⟩ := p
    by_cases hk : k₀ = k
    · subst hk
      simp only [alGet, if_pos rfl] at h
      injection h with h
      simp [h]
    · simp only [alGet, if_neg hk] at h
      simp [ih h]

theorem alGet_append_of_none {α β : Type} [DecidableEq α] (l1 l2 : List (α × β)) (k : α)
    (h : alGet l1 k = none) : alGet (l1 ++ l2) k = alGet l2 k := by
  induction l1 with
  | nil => simp
  | cons p rest ih =>
    obtain ⟨k₀, v₀⟩ := p
    by_cases hk : k₀ = k
    · simp [alGet, hk] at h
    · simp only [alGet, if_neg hk] at h
      simp only [List.cons_append, alGet, if_neg hk]
      exact ih h

theorem alGet_append_of_some {α β : Type} [DecidableEq α] (l1 l2 : List (α × β)) (k : α) (v : β)
    (h : alGet l1 k = some v) : alGet (l1 ++ l2) k = some v := by
  induction l1 with
  | nil => simp [alGet] at h
  | cons p rest ih =>
    obtain ⟨k₀, v₀⟩ := p
    by_cases hk : k₀ = k
    · simp only [alGet, if_pos hk] at h
      simp only [List.cons_append, alGet, if_pos hk]
      exact h
    · simp only [alGet, if_neg hk] at h
      simp only [List.cons_append, alGet, if_neg hk]
      exact ih h

theorem alDel_append {α β : Type} [DecidableEq α] (l1 l2 : List (α × β)) (k : α) :
    alDel (l1 ++ l2) k = alDel l1 k ++ alDel l2 k := by
  induction l1 with
  | nil => simp [alDel]
  | cons p rest ih =>
    obtain ⟨k₀, v₀⟩ := p
    by_cases hk : k₀ = k
    · simp [alDel, hk, ih]
    · simp [alDel, hk, ih]

theorem length_alSet_of_none {α β : Type} [DecidableEq α] (l : List (α × β)) (k : α) (v : β)
    (h : alGet l k = none) : (alSet l k v).length = l.length + 1 := by
  rw [alSet_of_not_mem l k v ((alGet_eq_none_iff l k).mp h)]
  simp

theorem mem_snd_alSet {α β : Type} [DecidableEq α] (l : List (α × β)) (k : α) (v v' : β)
    (h : v' ∈ (alSet l k v).map Prod.snd) : v' = v ∨ v' ∈ l.map Prod.snd := by
  induction l with
  | nil =>
    simp only [alSet, List.map_cons, List.map_nil, List.mem_singleton] at h
    exact Or.inl h
  | cons p rest ih =>
    obtain ⟨k₀, v₀⟩ := p
    by_cases hk : k₀ = k
    · rw [show alSet ((k₀, v₀) :: rest) k v = (k, v) :: rest from by simp [alSet, hk]] at h
      rw [List.map_cons] at h
      rcases List.mem_cons.mp h with h | h
      · exact Or.inl h
      · exact Or.inr (by rw [List.map_cons]; exact List.mem_cons_of_mem _ h)
    · rw [show alSet ((k₀, v₀) :: rest) k v = (k₀, v₀) :: alSet rest k v from by
        simp [alSet, hk]] at h
      rw [List.map_cons] at h
      rcases List.mem_cons.mp h with h | h
      · exact Or.inr (by rw [List.map_cons]; exact List.mem_cons.mpr (Or.inl h))
      · rcases ih h with h' | h'
        · exact Or.inl h'
        · exact Or.inr (by rw [List.map_cons]; exact List.mem_cons_of_mem _ h')

theorem keys_nodup_alSet {α β : Type} [DecidableEq α] (l : List (α × β)) (k : α) (v : β)
    (h : (l.map Prod.fst).Nodup) : ((alSet l k v).map Prod.fst).Nodup := by
  cases hg : alGet l k with
  | some v' => rw [keys_alSet_of_get l k v v' hg]; exact h
  | none =>
    rw [alSet_of_not_mem l k v ((alGet_eq_none_iff l k).mp hg)]
    simp only [List.map_append, List.map_cons, List.map_nil]
    rw [List.nodup_append]
    exact ⟨h, List.nodup_singleton k,
      by
        intro a ha hb
        simp only [List.mem_singleton] at hb
        subst hb
        exact (alGet_eq_none_iff l a).mp hg ha⟩

theorem values_nodup_alSet {α β : Type} [DecidableEq α] [DecidableEq β]
    (l : List (α × β)) (k : α) (v : β)
    (hnd : (l.map Prod.snd).Nodup) (hfresh : ∀ v' ∈ l.map Prod.snd, v' ≠ v) :
    ((alSet l k v).map Prod.snd).Nodup := by
  induction l with
  | nil => simp [alSet]
  | cons p rest ih =>
    obtain ⟨k₀, v₀⟩ := p
    rw [List.map_cons, List.nodup_cons] at hnd
    by_cases hk : k₀ = k
    · rw [show alSet ((k₀, v₀) :: rest) k v = (k, v) :: rest from by simp [alSet, hk]]
      rw [List.map_cons, List.nodup_cons]
      refine ⟨?_, hnd.2⟩
      intro hmem
      exact hfresh v (by rw [List.map_cons]; exact List.mem_cons_of_mem _ hmem) rfl
    · rw [show alSet ((k₀, v₀) :: rest) k v = (k₀, v₀) :: alSet rest k v from by
        simp [alSet, hk]]
      rw [List.map_cons, List.nodup_cons]
      constructor
      · intro hmem
        rcases mem_snd_alSet rest k v v₀ hmem with h' | h'
        · exact hfresh v₀ (by rw [List.map_cons]; exact List.mem_cons_self _ _) h'
        · exact hnd.1 h'
      · exact ih hnd.2 (fun v' hv' =>
          hfresh v' (by rw [List.map_cons]; exact List.mem_cons_of_mem _ hv'))

theorem alGet_values_inj {α β : Type} [DecidableEq α] [DecidableEq β]
    (l : List (α × β)) (hv : (l.map Prod.snd).Nodup) (k k' : α) (v : β)
    (h1 : alGet l k = some v) (h2 : alGet l k' = some v) : k = k' := by
  induction l with
  | nil => simp [alGet] at h1
  | cons p rest ih =>
    obtain ⟨k₀, v₀⟩ := p
    simp only [List.map_cons, List.nodup_cons] at hv
    by_cases ha : k₀ = k
    · by_cases hb : k₀ = k'
      · rw [← ha, ← hb]
      · subst ha
        simp only [alGet, if_pos rfl] at h1
        simp only [alGet, if_neg hb] at h2
        injection h1 with h1
        subst h1
        exact absurd (alGet_mem_snd rest k' v₀ h2) hv.1
    · by_cases hb : k₀ = k'
      · subst hb
        simp only [alGet, if_neg ha] at h1
        simp only [alGet, if_pos rfl] at h2
        injection h2 with h2
        subst h2
        exact absurd (alGet_mem_snd rest k v₀ h1) hv.1
      · simp only [alGet, if_neg ha] at h1
        simp only [alGet, if_neg hb] at h2
        exact ih hv.2 h1 h2

/-! Structural identities between handler pairs, and observation lemmas. -/

theorem applyDelete_eq_reverseCreate (w : WorldState) (id : String) :
    applyDelete w id = reverseCreate w id := rfl

theorem reverseDelete_eq_applyCreate (f : Factory) (w : WorldState) (snap : Snapshot) :
    reverseDelete f w snap = applyCreate f w snap := rfl

theorem applyTransform_eq_reverseTransform (w : WorldState) (id : String) (x : Option Xform) :
    applyTransform w id x = reverseTransform w id x := rfl

theorem applyProperty_eq_reverseProperty (w : WorldState) (id key : String) (v : PropVal) :
    applyProperty w id key v = reverseProperty w id key v := rfl

theorem objObs_setObjectProperty (o : Obj) (key : String) (v : PropVal) :
    objObs (setObjectProperty o key v) = obsSetProperty (objObs o) key v := by
  unfold setObjectProperty obsSetProperty
  by_cases hc : key = "color"
  · rw [if_pos hc, if_pos hc]
    cases hm : o.material with
    | none => cases v <;> simp [objObs, hm]
    | some m => cases v <;> simp [objObs, hm]
  · rw [if_neg hc, if_neg hc]
    by_cases hvk : key = "visible"
    · rw [if_pos hvk, if_pos hvk]
      cases v <;> simp [objObs]
    · rw [if_neg hvk, if_neg hvk]
      by_cases hn : key = "name"
      · rw [if_pos hn]
        cases v <;> simp [objObs]
      · rw [if_neg hn]

/-! Well-formedness preservation by the walk handlers. -/

theorem wfW_reverseCreate (w : WorldState) (id : String) (hwf : wfW w) :
    wfW (reverseCreate w id) := by
  unfold reverseCreate
  cases ht : alGet w.trackedObjects id with
  | none => exact hwf
  | some h =>
    obtain ⟨hb1, hb2, hb3, hk, hv⟩ := hwf
    unfold wfW
    refine ⟨?_, ?_, ?_, ?_, ?_⟩
    · intro h' hmem
      exact hb1 h' (((alDel_sublist w.trackedObjects id).map Prod.snd).subset hmem)
    · intro h' hmem
      exact hb2 h' ((removeFirst_sublist _ _).subset hmem)
    · intro h' hmem
      exact hb3 h' ((removeFirst_sublist _ _).subset hmem)
    · exact hk.sublist ((alDel_sublist _ _).map Prod.fst)
    · exact hv.sublist ((alDel_sublist _ _).map Prod.snd)

theorem wfW_applyCreate (f : Factory) (w : WorldState) (snap : Snapshot) (hwf : wfW w) :
    wfW (applyCreate f w snap) := by
  unfold applyCreate restoreObjectFromSnapshot
  cases hro : reconstructObj f snap with
  | none => exact hwf
  | some o =>
    obtain ⟨hb1, hb2, hb3, hk, hv⟩ := hwf
    unfold wfW
    simp only []
    refine ⟨?_, ?_, ?_, ?_, ?_⟩
    · intro h' hmem
      rcases mem_snd_alSet _ _ _ _ hmem with heq | hmem'
      · rw [heq]
        exact Nat.lt_succ_self _
      · exact Nat.lt_succ_of_lt (hb1 _ hmem')
    · intro h' hmem
      rcases List.mem_append.mp hmem with hmem' | hmem'
      · exact Nat.lt_succ_of_lt (hb2 _ hmem')
      · rw [List.mem_singleton.mp hmem']
        exact Nat.lt_succ_self _
    · intro h' hmem
      rcases List.mem_append.mp hmem with hmem' | hmem'
      · exact Nat.lt_succ_of_lt (hb3 _ hmem')
      · rw [List.mem_singleton.mp hmem']
        exact Nat.lt_succ_self _
    · exact keys_nodup_alSet _ _ _ hk
    · exact values_nodup_alSet _ _ _ hv (fun v' hv' => Nat.ne_of_lt (hb1 _ hv'))

theorem wfW_reverseTransform (w : WorldState) (id : String) (prev : Option Xform)
    (hwf : wfW w) : wfW (reverseTransform w id prev) := by
  unfold reverseTransform
  split
  · exact hwf
  · split
    · exact hwf
    · split
      · exact hwf
      · exact hwf

theorem wfW_reverseProperty (w : WorldState) (id key : String) (prev : PropVal)
    (hwf : wfW w) : wfW (reverseProperty w id key prev) := by
  unfold reverseProperty
  split
  · exact hwf
  · split
    · exact hwf
    · exact hwf

theorem wfW_reverseChange (f : Factory) (w : WorldState) (c : Change) (hwf : wfW w) :
    wfW (reverseChange f w c) := by
  cases c with
  | create id snap => exact wfW_reverseCreate w id hwf
  | delete id snap => exact wfW_applyCreate f w snap hwf
  | xform id prev next => exact wfW_reverseTransform w id prev hwf
  | prop id key prev next => exact wfW_reverseProperty w id key prev hwf

theorem wfW_applyChange (f : Factory) (w : WorldState) (c : Change) (hwf : wfW w) :
    wfW (applyChange f w c) := by
  cases c with
  | create id snap => exact wfW_applyCreate f w snap hwf
  | delete id snap => exact wfW_reverseCreate w id hwf
  | xform id prev next => exact wfW_reverseTransform w id next hwf
  | prop id key prev next => exact wfW_reverseProperty w id key next hwf

theorem wfW_foldl_reverse (f : Factory) (cs : List Change) :
    ∀ w, wfW w → wfW (cs.foldl (reverseChange f) w) := by
  induction cs with
  | nil => intro w hwf; exact hwf
  | cons c rest ih =>
    intro w hwf
    exact ih _ (wfW_reverseChange f w c hwf)

theorem wfW_undoWalkW (f : Factory) (w : WorldState) (cs : List Change) (hwf : wfW w) :
    wfW (undoWalkW f w cs) :=
  wfW_foldl_reverse f cs.reverse w hwf

theorem wfW_foldl_apply (f : Factory) (cs : List Change) :
    ∀ w, wfW w → wfW (cs.foldl (applyChange f) w) := by
  induction cs with
  | nil => intro w hwf; exact hwf
  | cons c rest ih =>
    intro w hwf
    exact ih _ (wfW_applyChange f w c hwf)

theorem wfW_redoWalkW (f : Factory) (w : WorldState) (cs : List Change) (hwf : wfW w) :
    wfW (redoWalkW f w cs) :=
  wfW_foldl_apply f cs w hwf

/-! Observable-equivalence helpers. -/

theorem simW_refl (w : WorldState) : simW w w :=
  ⟨rfl, rfl, rfl, fun _ => rfl⟩

theorem simW_trans {w1 w2 w3 : WorldState} (h12 : simW w1 w2) (h23 : simW w2 w3) :
    simW w1 w3 := by
  obtain ⟨a1, b1, c1, d1⟩ := h12
  obtain ⟨a2, b2, c2, d2⟩ := h23
  exact ⟨a1.trans a2, b1.trans b2, c1.trans c2, fun id => (d1 id).trans (d2 id)⟩

theorem sim_lookup_none {w1 w2 : WorldState} (hsim : simW w1 w2) (id : String)
    (h : alGet w1.trackedObjects id = none) : alGet w2.trackedObjects id = none := by
  have hl := hsim.2.2.2 id
  unfold lookupFull at hl
  rw [h] at hl
  cases h2 : alGet w2.trackedObjects id with
  | none => rfl
  | some g =>
    rw [h2] at hl
    simp at hl

theorem sim_lookup_some {w1 w2 : WorldState} (hsim : simW w1 w2) (id : String) (h1 : Nat)
    (h : alGet w1.trackedObjects id = some h1) :
    ∃ h2, alGet w2.trackedObjects id = some h2 ∧ observe w1 h1 = observe w2 h2 ∧
      (h1 ∈ w1.createdObjects ↔ h2 ∈ w2.createdObjects) ∧
      (h1 ∈ w1.sceneChildren ↔ h2 ∈ w2.sceneChildren) := by
  have hl := hsim.2.2.2 id
  unfold lookupFull at hl
  rw [h] at hl
  cases h2eq : alGet w2.trackedObjects id with
  | none =>
    rw [h2eq] at hl
    simp at hl
  | some h2 =>
    rw [h2eq] at hl
    simp only [Option.map_some'] at hl
    injection hl with hl
    refine ⟨h2, rfl, ?_, ?_, ?_⟩
    · exact congrArg (fun p => p.1) hl
    · exact decide_eq_decide.mp (congrArg (fun p => p.2.1) hl)
    · exact decide_eq_decide.mp (congrArg (fun p => p.2.2) hl)

theorem tracked_lt (w : WorldState) (hwf : wfW w) (id : String) (h : Nat)
    (hg : alGet w.trackedObjects id = some h) : h < w.nextHandle :=
  hwf.1 h (alGet_mem_snd _ _ _ hg)

theorem tracked_handle_ne (w : WorldState) (hwf : wfW w) (id id' : String) (h h' : Nat)
    (hg : alGet w.trackedObjects id = some h) (hg' : alGet w.trackedObjects id' = some h')
    (hne : id ≠ id') : h ≠ h' := by
  intro heq
  subst heq
  exact hne (alGet_values_inj _ hwf.2.2.2.2 _ _ _ hg hg')

theorem observe_some (w : WorldState) (h : Nat) (o : Obj) (hh : alGet w.heap h = some o) :
    observe w h = some (objObs o) := by
  unfold observe
  rw [hh]
  rfl

theorem observe_none (w : WorldState) (h : Nat) (hh : alGet w.heap h = none) :
    observe w h = none := by
  unfold observe
  rw [hh]
  rfl

theorem observe_none_inv (w : WorldState) (h : Nat) (ho : observe w h = none) :
    alGet w.heap h = none := by
  unfold observe at ho
  cases hx : alGet w.heap h with
  | none => rfl
  | some o =>
    rw [hx] at ho
    simp at ho

theorem observe_some_inv (w : WorldState) (h : Nat) (b : ObsObj)
    (ho : observe w h = some b) : ∃ o, alGet w.heap h = some o ∧ objObs o = b := by
  unfold observe at ho
  cases hx : alGet w.heap h with
  | none =>
    rw [hx] at ho
    simp at ho
  | some o =>
    rw [hx] at ho
    simp only [Option.map_some'] at ho
    injection ho with ho
    exact ⟨o, rfl, ho⟩

theorem simW_heap_update (w1 w2 : WorldState) (id : String) (h1 h2 : Nat) (o1' o2' : Obj)
    (hwf1 : wfW w1) (hwf2 : wfW w2) (hsim : simW w1 w2)
    (hg1 : alGet w1.trackedObjects id = some h1) (hg2 : alGet w2.trackedObjects id = some h2)
    (hobs' : objObs o1' = objObs o2') :
    simW { w1 with heap := alSet w1.heap h1 o1' } { w2 with heap := alSet w2.heap h2 o2' } := by
  obtain ⟨hl1, hl2, hl3, hpt⟩ := hsim
  refine ⟨hl1, hl2, hl3, ?_⟩
  intro id'
  show (alGet w1.trackedObjects id').map _ = (alGet w2.trackedObjects id').map _
  cases hg1' : alGet w1.trackedObjects id' with
  | none =>
    rw [sim_lookup_none ⟨hl1, hl2, hl3, hpt⟩ id' hg1']
    rfl
  | some g1 =>
    obtain ⟨g2, hg2', hobsg, hmcg, hmsg⟩ :=
      sim_lookup_some ⟨hl1, hl2, hl3, hpt⟩ id' g1 hg1'
    rw [hg2']
    simp only [Option.map_some']
    have hmem1 : decide (g1 ∈ w1.createdObjects) = decide (g2 ∈ w2.createdObjects) :=
      decide_eq_decide.mpr hmcg
    have hmem2 : decide (g1 ∈ w1.sceneChildren) = decide (g2 ∈ w2.sceneChildren) :=
      decide_eq_decide.mpr hmsg
    by_cases hid : id' = id
    · subst hid
      obtain rfl : g1 = h1 := by
        rw [hg1'] at hg1
        exact Option.some.inj hg1
      obtain rfl : g2 = h2 := by
        rw [hg2'] at hg2
        exact Option.some.inj hg2
      have ho1 : observe { w1 with heap := alSet w1.heap g1 o1' } g1 = some (objObs o1') :=
        observe_some _ _ _ (alGet_alSet_self _ _ _)
      have ho2 : observe { w2 with heap := alSet w2.heap g2 o2' } g2 = some (objObs o2') :=
        observe_some _ _ _ (alGet_alSet_self _ _ _)
      rw [ho1, ho2, hobs', hmem1, hmem2]
    · have hne1 : g1 ≠ h1 :=
        tracked_handle_ne w1 hwf1 id' id g1 h1 hg1' hg1 hid
      have hne2 : g2 ≠ h2 :=
        tracked_handle_ne w2 hwf2 id' id g2 h2 hg2' hg2 hid
      have ho1 : observe { w1 with heap := alSet w1.heap h1 o1' } g1 = observe w1 g1 := by
        unfold observe
        rw [show ({ w1 with heap := alSet w1.heap h1 o1' } : WorldState).heap =
              alSet w1.heap h1 o1' from rfl]
        rw [alGet_alSet_ne _ _ _ _ hne1]
      have ho2 : observe { w2 with heap := alSet w2.heap h2 o2' } g2 = observe w2 g2 := by
        unfold observe
        rw [show ({ w2 with heap := alSet w2.heap h2 o2' } : WorldState).heap =
              alSet w2.heap h2 o2' from rfl]
        rw [alGet_alSet_ne _ _ _ _ hne2]
      rw [ho1, ho2, hobsg, hmem1, hmem2]

/-! Congruence of the walk handlers with respect to observable equivalence. -/

theorem simW_reverseTransform (w1 w2 : WorldState) (id : String) (x : Option Xform)
    (hwf1 : wfW w1) (hwf2 : wfW w2) (hsim : simW w1 w2) :
    simW (reverseTransform w1 id x) (reverseTransform w2 id x) := by
  cases hg1 : alGet w1.trackedObjects id with
  | none =>
    have hg2 := sim_lookup_none hsim id hg1
    simp only [reverseTransform, hg1, hg2]
    exact hsim
  | some h1 =>
    obtain ⟨h2, hg2, hobs, _, _⟩ := sim_lookup_some hsim id h1 hg1
    cases x with
    | none =>
      simp only [reverseTransform, hg1, hg2]
      exact hsim
    | some xf =>
      cases hh1 : alGet w1.heap h1 with
      | none =>
        have hh2 : alGet w2.heap h2 = none := by
          apply observe_none_inv
          rw [← hobs]
          exact observe_none w1 h1 hh1
        simp only [reverseTransform, hg1, hg2, hh1, hh2]
        exact hsim
      | some o1 =>
        obtain ⟨o2, hh2, hoo⟩ := by
          apply observe_some_inv w2 h2 (objObs o1)
          rw [← hobs]
          exact observe_some w1 h1 o1 hh1
        simp only [reverseTransform, hg1, hg2, hh1, hh2]
        apply simW_heap_update w1 w2 id h1 h2 _ _ hwf1 hwf2 hsim hg1 hg2
        rw [show objObs { o1 with position := xf.pos, rotation := xf.rot, scl := xf.scl } =
              { objObs o1 with position := xf.pos, rotation := xf.rot, scl := xf.scl }
            from rfl]
        rw [show objObs { o2 with position := xf.pos, rotation := xf.rot, scl := xf.scl } =
              { objObs o2 with position := xf.pos, rotation := xf.rot, scl := xf.scl }
            from rfl]
        rw [hoo]

theorem simW_reverseProperty (w1 w2 : WorldState) (id key : String) (v : PropVal)
    (hwf1 : wfW w1) (hwf2 : wfW w2) (hsim : simW w1 w2) :
    simW (reverseProperty w1 id key v) (reverseProperty w2 id key v) := by
  cases hg1 : alGet w1.trackedObjects id with
  | none =>
    have hg2 := sim_lookup_none hsim id hg1
    simp only [reverseProperty, hg1, hg2]
    exact hsim
  | some h1 =>
    obtain ⟨h2, hg2, hobs, _, _⟩ := sim_lookup_some hsim id h1 hg1
    cases hh1 : alGet w1.heap h1 with
    | none =>
      have hh2 : alGet w2.heap h2 = none := by
        apply observe_none_inv
        rw [← hobs]
        exact observe_none w1 h1 hh1
      simp only [reverseProperty, hg1, hg2, hh1, hh2]
      exact hsim
    | some o1 =>
      obtain ⟨o2, hh2, hoo⟩ := by
        apply observe_some_inv w2 h2 (objObs o1)
        rw [← hobs]
        exact observe_some w1 h1 o1 hh1
      simp only [reverseProperty, hg1, hg2, hh1, hh2]
      apply simW_heap_update w1 w2 id h1 h2 _ _ hwf1 hwf2 hsim hg1 hg2
      rw [objObs_setObjectProperty, objObs_setObjectProperty, hoo]

theorem simW_reverseCreate (w1 w2 : WorldState) (id : String)
    (hwf1 : wfW w1) (hwf2 : wfW w2) (hsim : simW w1 w2) :
    simW (reverseCreate w1 id) (reverseCreate w2 id) := by
  cases hg1 : alGet w1.trackedObjects id with
  | none =>
    have hg2 := sim_lookup_none hsim id hg1
    simp only [reverseCreate, hg1, hg2]
    exact hsim
  | some h1 =>
    obtain ⟨h2, hg2, hobs, hmc, hms⟩ := sim_lookup_some hsim id h1 hg1
    obtain ⟨hl1, hl2, hl3, hpt⟩ := hsim
    simp only [reverseCreate, hg1, hg2]
    refine ⟨?_, ?_, ?_, ?_⟩
    · show (alDel w1.trackedObjects id).length = (alDel w2.trackedObjects id).length
      have e1 := length_alDel_of_get w1.trackedObjects id h1 hwf1.2.2.2.1 hg1
      have e2 := length_alDel_of_get w2.trackedObjects id h2 hwf2.2.2.2.1 hg2
      omega
    · show (removeFirst w1.createdObjects h1).length = (removeFirst w2.createdObjects h2).length
      by_cases hmem : h1 ∈ w1.createdObjects
      · have e1 := length_removeFirst_of_mem w1.createdObjects h1 hmem
        have e2 := length_removeFirst_of_mem w2.createdObjects h2 (hmc.mp hmem)
        omega
      · rw [removeFirst_of_not_mem _ _ hmem,
            removeFirst_of_not_mem _ _ (fun hx => hmem (hmc.mpr hx))]
        exact hl2
    · show (removeFirst w1.sceneChildren h1).length = (removeFirst w2.sceneChildren h2).length
      by_cases hmem : h1 ∈ w1.sceneChildren
      · have e1 := length_removeFirst_of_mem w1.sceneChildren h1 hmem
        have e2 := length_removeFirst_of_mem w2.sceneChildren h2 (hms.mp hmem)
        omega
      · rw [removeFirst_of_not_mem _ _ hmem,
            removeFirst_of_not_mem _ _ (fun hx => hmem (hms.mpr hx))]
        exact hl3
    · intro id'
      show (alGet (alDel w1.trackedObjects id) id').map _ =
           (alGet (alDel w2.trackedObjects id) id').map _
      by_cases hid : id' = id
      · subst hid
        rw [alGet_alDel_self, alGet_alDel_self]
        rfl
      · rw [alGet_alDel_ne _ _ _ hid, alGet_alDel_ne _ _ _ hid]
        cases hg1' : alGet w1.trackedObjects id' with
        | none =>
          rw [sim_lookup_none ⟨hl1, hl2, hl3, hpt⟩ id' hg1']
          rfl
        | some g1 =>
          obtain ⟨g2, hg2', hobsg, hmcg, hmsg⟩ :=
            sim_lookup_some ⟨hl1, hl2, hl3, hpt⟩ id' g1 hg1'
          rw [hg2']
          simp only [Option.map_some']
          have hne1 : g1 ≠ h1 := tracked_handle_ne w1 hwf1 id' id g1 h1 hg1' hg1 hid
          have hne2 : g2 ≠ h2 := tracked_handle_ne w2 hwf2 id' id g2 h2 hg2' hg2 hid
          simp only [Option.some.injEq, Prod.mk.injEq]
          refine ⟨hobsg, ?_, ?_⟩
          · exact decide_eq_decide.mpr
              ((mem_removeFirst_of_ne _ _ _ hne1).trans
                (hmcg.trans (mem_removeFirst_of_ne _ _ _ hne2).symm))
          · exact decide_eq_decide.mpr
              ((mem_removeFirst_of_ne _ _ _ hne1).trans
                (hmsg.trans (mem_removeFirst_of_ne _ _ _ hne2).symm))

theorem simW_applyCreate (f : Factory) (w1 w2 : WorldState) (snap : Snapshot)
    (hwf1 : wfW w1) (hwf2 : wfW w2) (hsim : simW w1 w2) :
    simW (applyCreate f w1 snap) (applyCreate f w2 snap) := by
  obtain ⟨hl1, hl2, hl3, hpt⟩ := hsim
  cases hro : reconstructObj f snap with
  | none =>
    simp only [applyCreate, restoreObjectFromSnapshot, hro]
    exact ⟨hl1, hl2, hl3, hpt⟩
  | some o =>
    simp only [applyCreate, restoreObjectFromSnapshot, hro]
    refine ⟨?_, ?_, ?_, ?_⟩
    · show (alSet w1.trackedObjects snap.id w1.nextHandle).length =
           (alSet w2.trackedObjects snap.id w2.nextHandle).length
      cases hgs : alGet w1.trackedObjects snap.id with
      | none =>
        rw [length_alSet_of_none _ _ _ hgs,
            length_alSet_of_none _ _ _ (sim_lookup_none ⟨hl1, hl2, hl3, hpt⟩ _ hgs), hl1]
      | some g0 =>
        obtain ⟨g0', hg0', _, _, _⟩ := sim_lookup_some ⟨hl1, hl2, hl3, hpt⟩ _ _ hgs
        rw [length_alSet_of_get _ _ _ _ hgs, length_alSet_of_get _ _ _ _ hg0', hl1]
    · show (w1.createdObjects ++ [w1.nextHandle]).length =
           (w2.createdObjects ++ [w2.nextHandle]).length
      simp [hl2]
    · show (w1.sceneChildren ++ [w1.nextHandle]).length =
           (w2.sceneChildren ++ [w2.nextHandle]).length
      simp [hl3]
    · intro id'
      by_cases hid : id' = snap.id
      · subst hid
        show (alGet (alSet w1.trackedObjects snap.id w1.nextHandle) snap.id).map _ =
             (alGet (alSet w2.trackedObjects snap.id w2.nextHandle) snap.id).map _
        rw [alGet_alSet_self, alGet_alSet_self]
        simp only [Option.map_some', Option.some.injEq, Prod.mk.injEq]
        refine ⟨?_, ?_, ?_⟩
        · show (alGet (alSet w1.heap w1.nextHandle o) w1.nextHandle).map objObs =
               (alGet (alSet w2.heap w2.nextHandle o) w2.nextHandle).map objObs
          rw [alGet_alSet_self, alGet_alSet_self]
        · rw [decide_eq_decide]
          constructor <;> intro _ <;>
            exact List.mem_append_right _ (List.mem_singleton.mpr rfl)
        · rw [decide_eq_decide]
          constructor <;> intro _ <;>
            exact List.mem_append_right _ (List.mem_singleton.mpr rfl)
      · show (alGet (alSet w1.trackedObjects snap.id w1.nextHandle) id').map _ =
             (alGet (alSet w2.trackedObjects snap.id w2.nextHandle) id').map _
        rw [alGet_alSet_ne _ _ _ _ hid, alGet_alSet_ne _ _ _ _ hid]
        cases hg1' : alGet w1.trackedObjects id' with
        | none =>
          rw [sim_lookup_none ⟨hl1, hl2, hl3, hpt⟩ id' hg1']
          rfl
        | some g1 =>
          obtain ⟨g2, hg2', hobsg, hmcg, hmsg⟩ :=
            sim_lookup_some ⟨hl1, hl2, hl3, hpt⟩ id' g1 hg1'
          rw [hg2']
          simp only [Option.map_some', Option.some.injEq, Prod.mk.injEq]
          have hlt1 : g1 < w1.nextHandle := tracked_lt w1 hwf1 id' g1 hg1'
          have hlt2 : g2 < w2.nextHandle := tracked_lt w2 hwf2 id' g2 hg2'
          refine ⟨?_, ?_, ?_⟩
          · show (alGet (alSet w1.heap w1.nextHandle o) g1).map objObs =
                 (alGet (alSet w2.heap w2.nextHandle o) g2).map objObs
            rw [alGet_alSet_ne _ _ _ _ (Nat.ne_of_lt hlt1),
                alGet_alSet_ne _ _ _ _ (Nat.ne_of_lt hlt2)]
            exact hobsg
          · rw [decide_eq_decide]
            constructor
            · intro hmem
              rcases List.mem_append.mp hmem with hm | hm
              · exact List.mem_append_left _ (hmcg.mp hm)
              · exact absurd (List.mem_singleton.mp hm) (Nat.ne_of_lt hlt1)
            · intro hmem
              rcases List.mem_append.mp hmem with hm | hm
              · exact List.mem_append_left _ (hmcg.mpr hm)
              · exact absurd (List.mem_singleton.mp hm) (Nat.ne_of_lt hlt2)
          · rw [decide_eq_decide]
            constructor
            · intro hmem
              rcases List.mem_append.mp hmem with hm | hm
              · exact List.mem_append_left _ (hmsg.mp hm)
              · exact absurd (List.mem_singleton.mp hm) (Nat.ne_of_lt hlt1)
            · intro hmem
              rcases List.mem_append.mp hmem with hm | hm
              · exact List.mem_append_left _ (hmsg.mpr hm)
              · exact absurd (List.mem_singleton.mp hm) (Nat.ne_of_lt hlt2)

theorem simW_applyChange (f : Factory) (w1 w2 : WorldState) (c : Change)
    (hwf1 : wfW w1) (hwf2 : wfW w2) (hsim : simW w1 w2) :
    simW (applyChange f w1 c) (applyChange f w2 c) := by
  cases c with
  | create id snap => exact simW_applyCreate f w1 w2 snap hwf1 hwf2 hsim
  | delete id snap => exact simW_reverseCreate w1 w2 id hwf1 hwf2 hsim
  | xform id prev next => exact simW_reverseTransform w1 w2 id next hwf1 hwf2 hsim
  | prop id key prev next => exact simW_reverseProperty w1 w2 id key next hwf1 hwf2 hsim

theorem simW_redoWalkW (f : Factory) (cs : List Change) :
    ∀ w1 w2, wfW w1 → wfW w2 → simW w1 w2 →
      simW (redoWalkW f w1 cs) (redoWalkW f w2 cs) := by
  induction cs with
  | nil => intro w1 w2 _ _ hsim; exact hsim
  | cons c rest ih =>
    intro w1 w2 hwf1 hwf2 hsim
    exact ih (applyChange f w1 c) (applyChange f w2 c)
      (wfW_applyChange f w1 c hwf1) (wfW_applyChange f w2 c hwf2)
      (simW_applyChange f w1 w2 c hwf1 hwf2 hsim)

/-! Branch characterizations of the mutating handlers. -/

theorem reverseTransform_untracked (w : WorldState) (id : String) (prev : Option Xform)
    (hg : alGet w.trackedObjects id = none) : reverseTransform w id prev = w := by
  simp only [reverseTransform, hg]

theorem reverseTransform_nonex (w : WorldState) (id : String) :
    reverseTransform w id none = w := by
  unfold reverseTransform
  split
  · rfl
  · rfl

theorem reverseTransform_heapmiss (w : WorldState) (id : String) (x : Xform) (h : Nat)
    (hg : alGet w.trackedObjects id = some h) (hh : alGet w.heap h = none) :
    reverseTransform w id (some x) = w := by
  simp only [reverseTransform, hg, hh]

theorem reverseTransform_some (w : WorldState) (id : String) (x : Xform) (h : Nat) (o : Obj)
    (hg : alGet w.trackedObjects id = some h) (hh : alGet w.heap h = some o) :
    reverseTransform w id (some x) =
      { w with heap := alSet w.heap h (applyXformOpt (some x) o) } := by
  simp only [reverseTransform, hg, hh]
  rfl

theorem reverseProperty_untracked (w : WorldState) (id key : String) (v : PropVal)
    (hg : alGet w.trackedObjects id = none) : reverseProperty w id key v = w := by
  simp only [reverseProperty, hg]

theorem reverseProperty_heapmiss (w : WorldState) (id key : String) (v : PropVal) (h : Nat)
    (hg : alGet w.trackedObjects id = some h) (hh : alGet w.heap h = none) :
    reverseProperty w id key v = w := by
  simp only [reverseProperty, hg, hh]

theorem reverseProperty_some (w : WorldState) (id key : String) (v : PropVal) (h : Nat)
    (o : Obj) (hg : alGet w.trackedObjects id = some h) (hh : alGet w.heap h = some o) :
    reverseProperty w id key v =
      { w with heap := alSet w.heap h (setObjectProperty o key v) } := by
  simp only [reverseProperty, hg, hh]

/-! Cancellation: redoing an undone change restores the state it was undone
from, provided the change was coherent with that state. -/

theorem cancel_xform (f : Factory) (w : WorldState) (id : String) (prev next : Option Xform)
    (hcoh : changeCoherentB f w (Change.xform id prev next) = true) :
    applyChange f (reverseChange f w (Change.xform id prev next))
      (Change.xform id prev next) = w := by
  show applyTransform (reverseTransform w id prev) id next = w
  rw [applyTransform_eq_reverseTransform]
  cases hg : alGet w.trackedObjects id with
  | none =>
    rw [reverseTransform_untracked w id prev hg, reverseTransform_untracked w id next hg]
  | some h =>
    cases hh : alGet w.heap h with
    | none =>
      have hrev : reverseTransform w id prev = w := by
        cases prev with
        | none => exact reverseTransform_nonex w id
        | some xp => exact reverseTransform_heapmiss w id xp h hg hh
      rw [hrev]
      cases next with
      | none => exact reverseTransform_nonex w id
      | some xn => exact reverseTransform_heapmiss w id xn h hg hh
    | some o =>
      have hfix : applyXformOpt next (applyXformOpt prev o) = o := by
        have hc := hcoh
        simp only [changeCoherentB, hg, hh] at hc
        exact of_decide_eq_true hc
      cases prev with
      | none =>
        rw [reverseTransform_nonex w id]
        cases next with
        | none => exact reverseTransform_nonex w id
        | some xn =>
          rw [reverseTransform_some w id xn h o hg hh]
          rw [show applyXformOpt none o = o from rfl] at hfix
          rw [hfix, alSet_eq_of_get _ _ _ hh]
      | some xp =>
        rw [reverseTransform_some w id xp h o hg hh]
        have hg' : alGet ({ w with heap := alSet w.heap h (applyXformOpt (some xp) o) } :
            WorldState).trackedObjects id = some h := hg
        cases next with
        | none =>
          rw [reverseTransform_nonex]
          rw [show applyXformOpt none (applyXformOpt (some xp) o) =
                applyXformOpt (some xp) o from rfl] at hfix
          rw [hfix, alSet_eq_of_get _ _ _ hh]
        | some xn =>
          have hh' : alGet ({ w with heap := alSet w.heap h (applyXformOpt (some xp) o) } :
              WorldState).heap h = some (applyXformOpt (some xp) o) :=
            alGet_alSet_self _ _ _
          rw [reverseTransform_some _ id xn h (applyXformOpt (some xp) o) hg' hh']
          rw [alSet_alSet, hfix, alSet_eq_of_get _ _ _ hh]

theorem cancel_prop (f : Factory) (w : WorldState) (id key : String) (prev next : PropVal)
    (hcoh : changeCoherentB f w (Change.prop id key prev next) = true) :
    applyChange f (reverseChange f w (Change.prop id key prev next))
      (Change.prop id key prev next) = w := by
  show applyProperty (reverseProperty w id key prev) id key next = w
  rw [applyProperty_eq_reverseProperty]
  cases hg : alGet w.trackedObjects id with
  | none =>
    rw [reverseProperty_untracked w id key prev hg,
        reverseProperty_untracked w id key next hg]
  | some h =>
    cases hh : alGet w.heap h with
    | none =>
      rw [reverseProperty_heapmiss w id key prev h hg hh,
          reverseProperty_heapmiss w id key next h hg hh]
    | some o =>
      have hfix : setObjectProperty (setObjectProperty o key prev) key next = o := by
        have hc := hcoh
        simp only [changeCoherentB, hg, hh] at hc
        exact of_decide_eq_true hc
      rw [reverseProperty_some w id key prev h o hg hh]
      have hg' : alGet ({ w with heap := alSet w.heap h (setObjectProperty o key prev) } :
          WorldState).trackedObjects id = some h := hg
      have hh' : alGet ({ w with heap := alSet w.heap h (setObjectProperty o key prev) } :
          WorldState).heap h = some (setObjectProperty o key prev) :=
        alGet_alSet_self _ _ _
      rw [reverseProperty_some _ id key next h (setObjectProperty o key prev) hg' hh']
      rw [alSet_alSet, hfix, alSet_eq_of_get _ _ _ hh]

theorem cancel_delete (f : Factory) (w : WorldState) (id : String) (snap : Snapshot)
    (hwf : wfW w) (hcoh : changeCoherentB f w (Change.delete id snap) = true) :
    simW (applyChange f (reverseChange f w (Change.delete id snap))
      (Change.delete id snap)) w := by
  show simW (applyDelete (reverseDelete f w snap) id) w
  have hc := hcoh
  simp only [changeCoherentB, Bool.and_eq_true, beq_iff_eq,
    Option.isNone_iff_eq_none] at hc
  obtain ⟨hid, hnone⟩ := hc
  subst hid
  rw [reverseDelete_eq_applyCreate]
  cases hro : reconstructObj f snap with
  | none =>
    rw [show applyCreate f w snap = w from by
      simp only [applyCreate, restoreObjectFromSnapshot, hro]]
    rw [applyDelete_eq_reverseCreate]
    rw [show reverseCreate w snap.id = w from by simp only [reverseCreate, hnone]]
    exact simW_refl w
  | some o =>
    rw [show applyCreate f w snap =
        { heap := alSet w.heap w.nextHandle o, nextHandle := w.nextHandle + 1,
          trackedObjects := alSet w.trackedObjects snap.id w.nextHandle,
          sceneChildren := w.sceneChildren ++ [w.nextHandle],
          createdObjects := w.createdObjects ++ [w.nextHandle] } from by
      simp only [applyCreate, restoreObjectFromSnapshot, hro]]
    rw [applyDelete_eq_reverseCreate]
    have hget : alGet (alSet w.trackedObjects snap.id w.nextHandle) snap.id =
        some w.nextHandle := alGet_alSet_self _ _ _
    simp only [reverseCreate, hget]
    have hnotin_sc : w.nextHandle ∉ w.sceneChildren :=
      fun hm => absurd (hwf.2.2.1 _ hm) (lt_irrefl _)
    have hnotin_cr : w.nextHandle ∉ w.createdObjects :=
      fun hm => absurd (hwf.2.1 _ hm) (lt_irrefl _)
    rw [removeFirst_append_last _ _ hnotin_sc, removeFirst_append_last _ _ hnotin_cr]
    rw [alSet_of_not_mem _ _ _ ((alGet_eq_none_iff _ _).mp hnone)]
    rw [alDel_append, alDel_of_not_mem _ _ ((alGet_eq_none_iff _ _).mp hnone)]
    rw [show alDel [(snap.id, w.nextHandle)] snap.id = ([] : List (String × Nat)) from by
      simp [alDel]]
    rw [List.append_nil]
    refine ⟨rfl, rfl, rfl, ?_⟩
    intro id'
    show (alGet w.trackedObjects id').map _ = (alGet w.trackedObjects id').map _
    cases hg' : alGet w.trackedObjects id' with
    | none => rfl
    | some g =>
      have hog : (alGet (alSet w.heap w.nextHandle o) g).map objObs =
          (alGet w.heap g).map objObs := by
        rw [alGet_alSet_ne _ _ _ _ (Nat.ne_of_lt (tracked_lt w hwf id' g hg'))]
      show some ((alGet (alSet w.heap w.nextHandle o) g).map objObs,
          decide (g ∈ w.createdObjects), decide (g ∈ w.sceneChildren)) =
        some ((alGet w.heap g).map objObs,
          decide (g ∈ w.createdObjects), decide (g ∈ w.sceneChildren))
      rw [hog]

theorem cancel_create (f : Factory) (w : WorldState) (id : String) (snap : Snapshot)
    (hwf : wfW w) (hcoh : changeCoherentB f w (Change.create id snap) = true) :
    simW (applyChange f (reverseChange f w (Change.create id snap))
      (Change.create id snap)) w := by
  show simW (applyCreate f (reverseCreate w id) snap) w
  have hc := hcoh
  simp only [changeCoherentB, Bool.and_eq_true, beq_iff_eq] at hc
  obtain ⟨hid, hc⟩ := hc
  subst hid
  cases hg : alGet w.trackedObjects snap.id with
  | none =>
    rw [hg] at hc
    simp at hc
  | some h =>
    rw [hg] at hc
    simp only [Bool.and_eq_true, decide_eq_true_eq] at hc
    obtain ⟨⟨hmc, hms⟩, hmatch⟩ := hc
    cases hro : reconObs f snap with
    | none =>
      rw [hro] at hmatch
      cases hob : observe w h <;> rw [hob] at hmatch <;> simp at hmatch
    | some a =>
      rw [hro] at hmatch
      cases hob : observe w h with
      | none =>
        rw [hob] at hmatch
        simp at hmatch
      | some b =>
        rw [hob] at hmatch
        have hab : a = b := of_decide_eq_true hmatch
        obtain ⟨o, hrc, hoa⟩ : ∃ o, reconstructObj f snap = some o ∧ objObs o = a := by
          unfold reconObs at hro
          cases hx : reconstructObj f snap with
          | none =>
            rw [hx] at hro
            simp at hro
          | some o0 =>
            rw [hx] at hro
            simp only [Option.map_some'] at hro
            injection hro with hro
            exact ⟨o0, rfl, hro⟩
        rw [show reverseCreate w snap.id =
            { w with sceneChildren := removeFirst w.sceneChildren h,
                     createdObjects := removeFirst w.createdObjects h,
                     trackedObjects := alDel w.trackedObjects snap.id } from by
          simp only [reverseCreate, hg]]
        rw [show applyCreate f
            { w with sceneChildren := removeFirst w.sceneChildren h,
                     createdObjects := removeFirst w.createdObjects h,
                     trackedObjects := alDel w.trackedObjects snap.id } snap =
            { heap := alSet w.heap w.nextHandle o, nextHandle := w.nextHandle + 1,
              trackedObjects := alSet (alDel w.trackedObjects snap.id) snap.id w.nextHandle,
              sceneChildren := removeFirst w.sceneChildren h ++ [w.nextHandle],
              createdObjects := removeFirst w.createdObjects h ++ [w.nextHandle] } from by
          simp only [applyCreate, restoreObjectFromSnapshot, hrc]]
        refine ⟨?_, ?_, ?_, ?_⟩
        · show (alSet (alDel w.trackedObjects snap.id) snap.id w.nextHandle).length =
               w.trackedObjects.length
          rw [length_alSet_of_none _ _ _ (alGet_alDel_self _ _)]
          have := length_alDel_of_get w.trackedObjects snap.id h hwf.2.2.2.1 hg
          omega
        · show (removeFirst w.createdObjects h ++ [w.nextHandle]).length =
               w.createdObjects.length
          rw [List.length_append, List.length_singleton]
          have := length_removeFirst_of_mem w.createdObjects h hmc
          omega
        · show (removeFirst w.sceneChildren h ++ [w.nextHandle]).length =
               w.sceneChildren.length
          rw [List.length_append, List.length_singleton]
          have := length_removeFirst_of_mem w.sceneChildren h hms
          omega
        · intro id'
          by_cases hid' : id' = snap.id
          · subst hid'
            show (alGet (alSet (alDel w.trackedObjects snap.id) snap.id w.nextHandle)
                   snap.id).map _ =
                 (alGet w.trackedObjects snap.id).map _
            rw [alGet_alSet_self, hg]
            simp only [Option.map_some', Option.some.injEq, Prod.mk.injEq]
            refine ⟨?_, ?_, ?_⟩
            · show (alGet (alSet w.heap w.nextHandle o) w.nextHandle).map objObs =
                   observe w h
              rw [alGet_alSet_self, hob, ← hab, ← hoa]
              rfl
            · exact decide_eq_decide.mpr
                (Iff.intro (fun _ => hmc)
                  (fun _ => List.mem_append_right _ (List.mem_singleton.mpr rfl)))
            · exact decide_eq_decide.mpr
                (Iff.intro (fun _ => hms)
                  (fun _ => List.mem_append_right _ (List.mem_singleton.mpr rfl)))
          · show (alGet (alSet (alDel w.trackedObjects snap.id) snap.id w.nextHandle) id').map _ =
                 (alGet w.trackedObjects id').map _
            rw [alGet_alSet_ne _ _ _ _ hid', alGet_alDel_ne _ _ _ hid']
            cases hg' : alGet w.trackedObjects id' with
            | none => rfl
            | some g =>
              simp only [Option.map_some', Option.some.injEq, Prod.mk.injEq]
              have hlt : g < w.nextHandle := tracked_lt w hwf id' g hg'
              have hgh : g ≠ h := tracked_handle_ne w hwf id' snap.id g h hg' hg hid'
              refine ⟨?_, ?_, ?_⟩
              · show (alGet (alSet w.heap w.nextHandle o) g).map objObs =
                     (alGet w.heap g).map objObs
                rw [alGet_alSet_ne _ _ _ _ (Nat.ne_of_lt hlt)]
              · refine decide_eq_decide.mpr ?_
                rw [List.mem_append, mem_removeFirst_of_ne _ _ _ hgh, List.mem_singleton]
                constructor
                · rintro (hx | hx)
                  · exact hx
                  · exact absurd hx (Nat.ne_of_lt hlt)
                · exact fun hx => Or.inl hx
              · refine decide_eq_decide.mpr ?_
                rw [List.mem_append, mem_removeFirst_of_ne _ _ _ hgh, List.mem_singleton]
                constructor
                · rintro (hx | hx)
                  · exact hx
                  · exact absurd hx (Nat.ne_of_lt hlt)
                · exact fun hx => Or.inl hx

theorem cancel_change (f : Factory) (w : WorldState) (c : Change) (hwf : wfW w)
    (hcoh : changeCoherentB f w c = true) :
    simW (applyChange f (reverseChange f w c) c) w := by
  cases c with
  | create id snap => exact cancel_create f w id snap hwf hcoh
  | delete id snap => exact cancel_delete f w id snap hwf hcoh
  | xform id prev next =>
    rw [cancel_xform f w id prev next hcoh]
    exact simW_refl w
  | prop id key prev next =>
    rw [cancel_prop f w id key prev next hcoh]
    exact simW_refl w

theorem undoWalkW_cons (f : Factory) (w : WorldState) (c : Change) (rest : List Change) :
    undoWalkW f w (c :: rest) = reverseChange f (undoWalkW f w rest) c := by
  unfold undoWalkW
  rw [List.reverse_cons, List.foldl_append]
  rfl

theorem roundTripW (f : Factory) (cs : List Change) :
    ∀ w, wfW w → changesCoherentB f w cs = true →
      simW (redoWalkW f (undoWalkW f w cs) cs) w := by
  induction cs with
  | nil =>
    intro w _ _
    exact simW_refl w
  | cons c rest ih =>
    intro w hwf hcoh
    simp only [changesCoherentB, Bool.and_eq_true] at hcoh
    obtain ⟨hc, hcs⟩ := hcoh
    rw [undoWalkW_cons]
    show simW
      (redoWalkW f (applyChange f (reverseChange f (undoWalkW f w rest) c) c) rest) w
    have hwfR : wfW (undoWalkW f w rest) := wfW_undoWalkW f w rest hwf
    have hcancel := cancel_change f (undoWalkW f w rest) c hwfR hc
    have hwfA : wfW (applyChange f (reverseChange f (undoWalkW f w rest) c) c) :=
      wfW_applyChange f _ c (wfW_reverseChange f _ c hwfR)
    have hcong := simW_redoWalkW f rest _ _ hwfA hwfR hcancel
    exact simW_trans hcong (ih w hwf hcs)

/-- C1: round-trip law.  For a committed transaction of recorded changes
sitting on top of the undo stack — the recording discipline is captured by
`changesCoherentB` (the world reflects each change's forward data at the
point the undo walk reaches it) and `wfW` (handles are allocated and ids
track unique live objects) — `undo()` followed immediately by `redo()`
succeeds and restores the whole engine observably: both stacks, the guard
flags, the open transaction and the id counter are restored exactly, and
the world is observably identical (position, rotation, scale, visibility,
material color, and the count/membership of tracked objects, scene and
`createdObjects`). -/
theorem undo_redo_round_trip (f : Factory) (s : HMState) (init : List Transaction)
    (t : Transaction) (hstack : s.undoStack = init ++ [t])
    (hu : s.isExecutingUndo = false) (hr : s.isExecutingRedo = false)
    (hwf : wfW s.world) (hcoh : changesCoherentB f s.world t.changes = true) :
    (undo f s).1 = true ∧
    (redo f (undo f s).2).1 = true ∧
    (redo f (undo f s).2).2.undoStack = s.undoStack ∧
    (redo f (undo f s).2).2.redoStack = s.redoStack ∧
    (redo f (undo f s).2).2.isExecutingUndo = false ∧
    (redo f (undo f s).2).2.isExecutingRedo = false ∧
    (redo f (undo f s).2).2.currentTransaction = s.currentTransaction ∧
    (redo f (undo f s).2).2.nextObjectId = s.nextObjectId ∧
    simW (redo f (undo f s).2).2.world s.world := by
  have h1 := undo_success f s init t hstack hu hr
  rw [h1]
  simp only []
  have h2 := redo_success f
    { s with undoStack := init, redoStack := s.redoStack ++ [t],
             world := undoWalkW f s.world t.changes }
    s.redoStack t rfl hu hr
  rw [h2]
  simp only []
  refine ⟨trivial, trivial, ?_, trivial, hu, hr, trivial, trivial, ?_⟩
  · exact hstack.symm
  · exact roundTripW f t.changes s.world hwf hcoh

/-- Witness for C1: undo then redo of the demo creation restores the demo
state observably. -/
theorem undo_redo_round_trip_witness :
    (undo demoFactory demoState).1 = true ∧
    (redo demoFactory (undo demoFactory demoState).2).1 = true ∧
    (redo demoFactory (undo demoFactory demoState).2).2.undoStack = demoState.undoStack ∧
    (redo demoFactory (undo demoFactory demoState).2).2.redoStack = demoState.redoStack ∧
    simW (redo demoFactory (undo demoFactory demoState).2).2.world demoState.world := by
  have h := undo_redo_round_trip demoFactory demoState [] demoTxn rfl rfl rfl
    (by decide) (by decide)
  exact ⟨h.1, h.2.1, h.2.2.1, h.2.2.2.1, h.2.2.2.2.2.2.2.2⟩

/-! Coalescing-window support lemmas. -/

theorem setObjectProperty_historyId (o : Obj) (key : String) (v : PropVal) :
    (setObjectProperty o key v).userData.historyId = o.userData.historyId := by
  unfold setObjectProperty
  by_cases hc : key = "color"
  · rw [if_pos hc]
    cases o.material <;> cases v <;> rfl
  · rw [if_neg hc]
    by_cases hv : key = "visible"
    · rw [if_pos hv]
      cases v <;> rfl
    · rw [if_neg hv]
      by_cases hn : key = "name"
      · rw [if_pos hn]
        cases v <;> rfl
      · rw [if_neg hn]

theorem readPropVal_restore (o : Obj) (key : String) (prev v : PropVal)
    (hr : readPropVal o key = some prev) :
    setObjectProperty (setObjectProperty o key v) key prev = o := by
  obtain ⟨pos, rot, scl, vis, mat, ud⟩ := o
  unfold readPropVal at hr
  by_cases hc : key = "color"
  · rw [if_pos hc] at hr
    cases mat with
    | none => simp at hr
    | some m =>
      obtain ⟨col, tr, op⟩ := m
      cases col with
      | none => simp at hr
      | some c =>
        simp only [Option.bind_some, Option.map_some'] at hr
        injection hr with hr
        subst hr
        cases v <;> simp [setObjectProperty, hc]
  · rw [if_neg hc] at hr
    by_cases hv : key = "visible"
    · rw [if_pos hv] at hr
      injection hr with hr
      subst hr
      cases v <;> simp [setObjectProperty, hc, hv]
    · rw [if_neg hv] at hr
      by_cases hn : key = "name"
      · rw [if_pos hn] at hr
        obtain ⟨hid, st, ak, de, nm⟩ := ud
        cases nm with
        | none => simp at hr
        | some n =>
          simp only [Option.map_some'] at hr
          injection hr with hr
          subst hr
          cases v <;> simp [setObjectProperty, hc, hv, hn]
      · rw [if_neg hn] at hr
        simp at hr

theorem readPropVal_isSome_compat (o0 o1 : Obj) (key : String) (h : objCompat o0 o1) :
    (readPropVal o1 key).isSome = (readPropVal o0 key).isSome := by
  obtain ⟨h1, h2, h3, h4⟩ := h
  unfold readPropVal
  by_cases hc : key = "color"
  · rw [if_pos hc, if_pos hc]
    cases hb1 : (o1.material.bind fun m => m.color) with
    | none =>
      rw [hb1] at h3
      cases hb0 : (o0.material.bind fun m => m.color) with
      | none => rfl
      | some c0 =>
        rw [hb0] at h3
        simp at h3
    | some c1 =>
      rw [hb1] at h3
      cases hb0 : (o0.material.bind fun m => m.color) with
      | none =>
        rw [hb0] at h3
        simp at h3
      | some c0 => rfl
  · rw [if_neg hc, if_neg hc]
    by_cases hv : key = "visible"
    · rw [if_pos hv, if_pos hv]
      rfl
    · rw [if_neg hv, if_neg hv]
      by_cases hn : key = "name"
      · rw [if_pos hn, if_pos hn]
        cases hb1 : o1.userData.name with
        | none =>
          rw [hb1] at h4
          cases hb0 : o0.userData.name with
          | none => rfl
          | some n0 =>
            rw [hb0] at h4
            simp at h4
        | some n1 =>
          rw [hb1] at h4
          cases hb0 : o0.userData.name with
          | none =>
            rw [hb0] at h4
            simp at h4
          | some n0 => rfl
      · rw [if_neg hn, if_neg hn]

theorem objCompat_set (o0 o1 : Obj) (key : String) (prev v : PropVal)
    (hr : readPropVal o1 key = some prev) (h : objCompat o0 o1) :
    objCompat o0 (setObjectProperty o1 key v) := by
  obtain ⟨h1, h2, h3, h4⟩ := h
  obtain ⟨pos, rot, scl, vis, mat, ud⟩ := o1
  unfold readPropVal at hr
  unfold setObjectProperty objCompat
  by_cases hc : key = "color"
  · rw [if_pos hc] at hr
    rw [if_pos hc]
    cases mat with
    | none => cases v <;> exact ⟨h1, h2, h3, h4⟩
    | some m =>
      obtain ⟨col, tr, op⟩ := m
      cases col with
      | none => simp at hr
      | some c =>
        cases v with
        | num c' =>
          simp only []
          refine ⟨h1, ?_, ?_, h4⟩
          · simpa using h2
          · simpa using h3
        | flag b => exact ⟨h1, h2, h3, h4⟩
        | str ss => exact ⟨h1, h2, h3, h4⟩
  · rw [if_neg hc] at hr
    rw [if_neg hc]
    by_cases hv : key = "visible"
    · rw [if_pos hv]
      cases v <;> exact ⟨h1, h2, h3, h4⟩
    · rw [if_neg hv] at hr
      rw [if_neg hv]
      by_cases hn : key = "name"
      · rw [if_pos hn] at hr
        rw [if_pos hn]
        obtain ⟨hid, st, ak, de, nm⟩ := ud
        cases nm with
        | none => simp at hr
        | some n =>
          cases v with
          | num c' => exact ⟨h1, h2, h3, h4⟩
          | flag b => exact ⟨h1, h2, h3, h4⟩
          | str ss =>
            simp only []
            refine ⟨h1, h2, h3, ?_⟩
            simpa using h4
      · rw [if_neg hn]
        exact ⟨h1, h2, h3, h4⟩

theorem objCompat_xform (o0 o1 : Obj) (p r c : Vec3) (h : objCompat o0 o1) :
    objCompat o0 { o1 with position := p, rotation := r, scl := c } :=
  h

theorem heapCompat_refl (h0 : List (Nat × Obj)) : heapCompat h0 h0 := by
  intro h
  cases hx : alGet h0 h with
  | none => exact Or.inl ⟨rfl, rfl⟩
  | some o => exact Or.inr ⟨o, o, rfl, rfl, ⟨rfl, rfl, rfl, rfl⟩⟩

theorem heapCompat_set (h0 h1 : List (Nat × Obj)) (h : Nat) (o0 o1' : Obj)
    (hcompat : heapCompat h0 h1) (hh0 : alGet h0 h = some o0)
    (hco : objCompat o0 o1') :
    heapCompat h0 (alSet h1 h o1') := by
  intro h'
  by_cases he : h' = h
  · subst he
    exact Or.inr ⟨o0, o1', hh0, alGet_alSet_self _ _ _, hco⟩
  · rcases hcompat h' with ⟨ha, hb⟩ | ⟨a, b, ha, hb, hc⟩
    · exact Or.inl ⟨ha, by rw [alGet_alSet_ne _ _ _ _ he]; exact hb⟩
    · exact Or.inr ⟨a, b, ha, by rw [alGet_alSet_ne _ _ _ _ he]; exact hb, hc⟩

theorem undoWalkW_append_one (f : Factory) (w : WorldState) (cs : List Change) (c : Change) :
    undoWalkW f w (cs ++ [c]) = undoWalkW f (reverseChange f w c) cs := by
  unfold undoWalkW
  rw [List.reverse_append]
  rfl

theorem getObjectId_known (σ : HMState) (h : Nat) (o : Obj) (id : String)
    (hh : alGet σ.world.heap h = some o) (hid : o.userData.historyId = some id) :
    getObjectId σ h =
      (id, { σ with world := { σ.world with trackedObjects := alSet σ.world.trackedObjects id h } }) := by
  unfold getObjectId
  simp only [hh, hid]

theorem addChange_append (σ : HMState) (c : Change) (t : Transaction)
    (hu : σ.isExecutingUndo = false) (hr : σ.isExecutingRedo = false)
    (hrec : σ.isRecording = true) (hct : σ.currentTransaction = some t) :
    addChange σ c =
      { σ with currentTransaction := some { label := t.label, changes := t.changes ++ [c] } } := by
  unfold addChange
  simp [hu, hr, hrec, hct]

theorem recordPropertyChange_known (σ : HMState) (h : Nat) (o : Obj) (id key : String)
    (prev next : PropVal) (t : Transaction)
    (hh : alGet σ.world.heap h = some o) (hid : o.userData.historyId = some id)
    (htr : alSet σ.world.trackedObjects id h = σ.world.trackedObjects)
    (hu : σ.isExecutingUndo = false) (hr : σ.isExecutingRedo = false)
    (hrec : σ.isRecording = true) (hct : σ.currentTransaction = some t) :
    recordPropertyChange σ h key prev next =
      { σ with currentTransaction := some { label := t.label, changes := t.changes ++ [Change.prop id key prev next] } } := by
  unfold recordPropertyChange
  rw [getObjectId_known σ h o id hh hid]
  simp only []
  rw [htr]
  exact addChange_append _ _ t hu hr hrec hct

theorem recordTransformChange_known (σ : HMState) (h : Nat) (o : Obj) (id : String)
    (prev next : Option Xform) (t : Transaction)
    (hh : alGet σ.world.heap h = some o) (hid : o.userData.historyId = some id)
    (htr : alSet σ.world.trackedObjects id h = σ.world.trackedObjects)
    (hu : σ.isExecutingUndo = false) (hr : σ.isExecutingRedo = false)
    (hrec : σ.isRecording = true) (hct : σ.currentTransaction = some t) :
    recordTransformChange σ h prev next =
      { σ with currentTransaction := some { label := t.label, changes := t.changes ++ [Change.xform id prev next] } } := by
  unfold recordTransformChange
  rw [getObjectId_known σ h o id hh hid]
  simp only []
  rw [htr]
  exact addChange_append _ _ t hu hr hrec hct

theorem window_step (f : Factory) (s : HMState) (label : String) (σ : HMState)
    (cs : List Change) (e : Edit)
    (hP : windowInv f s label σ cs) (hok : editOKB s.world e = true) :
    ∃ c, windowInv f s label (doEdit σ e) (cs ++ [c]) := by
  obtain ⟨hP1, hP2, hP3, hP4, hP5, hP6, hP7, hP8, hP9, hP10, hP11, hP12, hP13⟩ := hP
  cases e with
  | prop h key next =>
    cases hh0 : alGet s.world.heap h with
    | none =>
      simp only [editOKB, hh0] at hok
      exact Bool.noConfusion hok
    | some o0 =>
      cases hid0 : o0.userData.historyId with
      | none =>
        simp only [editOKB, hh0, hid0] at hok
        exact Bool.noConfusion hok
      | some id =>
        simp only [editOKB, hh0, hid0, Bool.and_eq_true, beq_iff_eq] at hok
        obtain ⟨htr0, hrs0⟩ := hok
        rcases hP12 h with ⟨hna, hnb⟩ | ⟨a, o1, ha, hh1, hco⟩
        · rw [hh0] at hna
          exact absurd hna (by simp)
        · rw [hh0] at ha
          injection ha with ha
          subst ha
          have hrs1 : (readPropVal o1 key).isSome = true := by
            rw [readPropVal_isSome_compat o0 o1 key hco]
            exact hrs0
          obtain ⟨prev, hprev⟩ := Option.isSome_iff_exists.mp hrs1
          refine ⟨Change.prop id key prev next, ?_⟩
          have hXid : (setObjectProperty o1 key next).userData.historyId = some id := by
            rw [setObjectProperty_historyId, hco.1, hid0]
          have htrσ : alSet σ.world.trackedObjects id h = σ.world.trackedObjects := by
            apply alSet_eq_of_get
            rw [hP8]
            exact htr0
          have htrσ2 : alGet σ.world.trackedObjects id = some h := by
            rw [hP8]
            exact htr0
          have hdo : doEdit σ (Edit.prop h key next) =
              { σ with
                currentTransaction :=
                  some { label := label, changes := cs ++ [Change.prop id key prev next] },
                world :=
                  { σ.world with heap := alSet σ.world.heap h (setObjectProperty o1 key next) } } := by
            unfold doEdit
            simp only [hh1, hprev]
            rw [recordPropertyChange_known { σ with world := { σ.world with heap := alSet σ.world.heap h (setObjectProperty o1 key next) } } h (setObjectProperty o1 key next) id key prev next { label := label, changes := cs } (alGet_alSet_self _ _ _) hXid htrσ hP4 hP5 hP6 hP7]
          rw [hdo]
          refine ⟨hP1, hP2, hP3, hP4, hP5, hP6, rfl, hP8, hP9, hP10, hP11, ?_, ?_⟩
          · exact heapCompat_set s.world.heap σ.world.heap h o0 _ hP12 hh0
              (objCompat_set o0 o1 key prev next hprev hco)
          · show undoWalkW f { σ.world with heap := alSet σ.world.heap h (setObjectProperty o1 key next) } (cs ++ [Change.prop id key prev next]) = s.world
            rw [undoWalkW_append_one]
            have hrev : reverseChange f { σ.world with heap := alSet σ.world.heap h (setObjectProperty o1 key next) } (Change.prop id key prev next) = σ.world := by
              show reverseProperty { σ.world with heap := alSet σ.world.heap h (setObjectProperty o1 key next) } id key prev = σ.world
              rw [reverseProperty_some { σ.world with heap := alSet σ.world.heap h (setObjectProperty o1 key next) } id key prev h (setObjectProperty o1 key next) htrσ2 (alGet_alSet_self _ _ _)]
              rw [readPropVal_restore o1 key prev next hprev]
              show ({ σ.world with heap := alSet (alSet σ.world.heap h (setObjectProperty o1 key next)) h o1 } : WorldState) = σ.world
              rw [alSet_alSet, alSet_eq_of_get _ _ _ hh1]
            rw [hrev]
            exact hP13
  | xform h next =>
    cases hh0 : alGet s.world.heap h with
    | none =>
      simp only [editOKB, hh0] at hok
      exact Bool.noConfusion hok
    | some o0 =>
      cases hid0 : o0.userData.historyId with
      | none =>
        simp only [editOKB, hh0, hid0] at hok
        exact Bool.noConfusion hok
      | some id =>
        simp only [editOKB, hh0, hid0, beq_iff_eq] at hok
        have htr0 : alGet s.world.trackedObjects id = some h := hok
        rcases hP12 h with ⟨hna, hnb⟩ | ⟨a, o1, ha, hh1, hco⟩
        · rw [hh0] at hna
          exact absurd hna (by simp)
        · rw [hh0] at ha
          injection ha with ha
          subst ha
          refine ⟨Change.xform id (some (xformOf o1)) (some next), ?_⟩
          have hXid : ({ o1 with position := next.pos, rotation := next.rot, scl := next.scl } : Obj).userData.historyId = some id := by
            show o1.userData.historyId = some id
            rw [hco.1, hid0]
          have htrσ : alSet σ.world.trackedObjects id h = σ.world.trackedObjects := by
            apply alSet_eq_of_get
            rw [hP8]
            exact htr0
          have htrσ2 : alGet σ.world.trackedObjects id = some h := by
            rw [hP8]
            exact htr0
          have hdo : doEdit σ (Edit.xform h next) =
              { σ with
                currentTransaction :=
                  some { label := label, changes :=
                    cs ++ [Change.xform id (some (xformOf o1)) (some next)] },
                world :=
                  { σ.world with heap := alSet σ.world.heap h { o1 with position := next.pos, rotation := next.rot, scl := next.scl } } } := by
            unfold doEdit
            simp only [hh1]
            rw [recordTransformChange_known { σ with world := { σ.world with heap := alSet σ.world.heap h { o1 with position := next.pos, rotation := next.rot, scl := next.scl } } } h { o1 with position := next.pos, rotation := next.rot, scl := next.scl } id (some { pos := o1.position, rot := o1.rotation, scl := o1.scl }) (some next) { label := label, changes := cs } (alGet_alSet_self _ _ _) hXid htrσ hP4 hP5 hP6 hP7]
            rfl
          rw [hdo]
          refine ⟨hP1, hP2, hP3, hP4, hP5, hP6, rfl, hP8, hP9, hP10, hP11, ?_, ?_⟩
          · exact heapCompat_set s.world.heap σ.world.heap h o0 _ hP12 hh0
              (objCompat_xform o0 o1 next.pos next.rot next.scl hco)
          · show undoWalkW f { σ.world with heap := alSet σ.world.heap h { o1 with position := next.pos, rotation := next.rot, scl := next.scl } } (cs ++ [Change.xform id (some (xformOf o1)) (some next)]) = s.world
            rw [undoWalkW_append_one]
            have hrev : reverseChange f { σ.world with heap := alSet σ.world.heap h { o1 with position := next.pos, rotation := next.rot, scl := next.scl } } (Change.xform id (some (xformOf o1)) (some next)) = σ.world := by
              show reverseTransform { σ.world with heap := alSet σ.world.heap h { o1 with position := next.pos, rotation := next.rot, scl := next.scl } } id (some (xformOf o1)) = σ.world
              rw [reverseTransform_some { σ.world with heap := alSet σ.world.heap h { o1 with position := next.pos, rotation := next.rot, scl := next.scl } } id (xformOf o1) h { o1 with position := next.pos, rotation := next.rot, scl := next.scl } htrσ2 (alGet_alSet_self _ _ _)]
              rw [show applyXformOpt (some (xformOf o1)) { o1 with position := next.pos, rotation := next.rot, scl := next.scl } = o1 from rfl]
              show ({ σ.world with heap := alSet (alSet σ.world.heap h { o1 with position := next.pos, rotation := next.rot, scl := next.scl }) h o1 } : WorldState) = σ.world
              rw [alSet_alSet, alSet_eq_of_get _ _ _ hh1]
            rw [hrev]
            exact hP13

theorem window_fold (f : Factory) (s : HMState) (label : String) (σ : HMState)
    (cs : List Change) (es : List Edit)
    (hP : windowInv f s label σ cs) (hok : es.all (editOKB s.world) = true) :
    ∃ cs', windowInv f s label (es.foldl doEdit σ) (cs ++ cs') ∧
      cs'.length = es.length := by
  induction es generalizing σ cs with
  | nil =>
    refine ⟨[], ?_, rfl⟩
    rw [List.append_nil]
    exact hP
  | cons e es ih =>
    simp only [List.all_cons, Bool.and_eq_true] at hok
    obtain ⟨hok1, hok2⟩ := hok
    obtain ⟨c, hP'⟩ := window_step f s label σ cs e hP hok1
    obtain ⟨cs', h1, h2⟩ := ih (doEdit σ e) (cs ++ [c]) hP' hok2
    refine ⟨c :: cs', ?_, by simp [h2]⟩
    rw [List.append_assoc] at h1
    exact h1

/-- C6: N ≥ 1 property or transform edits recorded between one
`startCoalescing(label)` call and the matching `stopCoalescing()` call push
exactly one transaction (labelled `label` and holding exactly N changes)
onto the undo stack, and a single `undo()` of that transaction reverts the
world exactly to the pre-window state.  The caller-side edit protocol is
modelled from the spec's collaborator contract (`doEdit`/`editOKB`); all
engine operations are the source embeddings. -/
theorem coalescing_single_transaction (f : Factory) (s : HMState) (label : String)
    (es : List Edit)
    (hu : s.isExecutingUndo = false) (hr : s.isExecutingRedo = false)
    (hrec : s.isRecording = true) (hct : s.currentTransaction = none)
    (hcap : s.undoStack.length < s.maxHistorySize)
    (hne : es ≠ []) (hok : es.all (editOKB s.world) = true) :
    ∃ t : Transaction,
      (stopCoalescing (es.foldl doEdit (startCoalescing s label))).undoStack = s.undoStack ++ [t] ∧
      t.label = label ∧
      t.changes.length = es.length ∧
      (stopCoalescing (es.foldl doEdit (startCoalescing s label))).currentTransaction = none ∧
      (undo f (stopCoalescing (es.foldl doEdit (startCoalescing s label)))).1 = true ∧
      (undo f (stopCoalescing (es.foldl doEdit (startCoalescing s label)))).2.world = s.world ∧
      (undo f (stopCoalescing (es.foldl doEdit (startCoalescing s label)))).2.undoStack = s.undoStack := by
  have hσ0 : startCoalescing s label = { s with currentTransaction := some { label := label, changes := [] } } := by
    unfold startCoalescing
    simp only [hct]
    unfold startTransaction
    rw [hu, hr]
    simp
  rw [hσ0]
  have hinv0 : windowInv f s label { s with currentTransaction := some { label := label, changes := [] } } [] :=
    ⟨rfl, rfl, rfl, hu, hr, hrec, rfl, rfl, rfl, rfl, rfl, heapCompat_refl _, rfl⟩
  obtain ⟨cs', hinv, hcnt⟩ := window_fold f s label _ [] es hinv0 hok
  simp only [List.nil_append] at hinv
  set σN := es.foldl doEdit { s with currentTransaction := some { label := label, changes := [] } } with hσN
  obtain ⟨h1, h2, h3, h4, h5, h6, h7, h8, h9, h10, h11, h12, h13⟩ := hinv
  have hzero : ({ label := label, changes := cs' } : Transaction).changes.length ≠ 0 := by
    show cs'.length ≠ 0
    rw [hcnt]
    intro hx
    exact hne (List.length_eq_zero.mp hx)
  have hcommit : stopCoalescing σN =
      { σN with undoStack := s.undoStack ++ [{ label := label, changes := cs' }], redoStack := [], currentTransaction := none } := by
    unfold stopCoalescing commitTransaction
    rw [h7]
    simp only []
    rw [if_neg hzero]
    rw [h1, h3]
    rw [if_neg (by simp only [List.length_append, List.length_singleton]; omega)]
  rw [hcommit]
  have hundo := undo_success f
    { σN with undoStack := s.undoStack ++ [{ label := label, changes := cs' }], redoStack := [], currentTransaction := none }
    s.undoStack { label := label, changes := cs' } rfl h4 h5
  rw [hundo]
  exact ⟨{ label := label, changes := cs' }, rfl, rfl, hcnt, rfl, rfl, h13, rfl⟩

theorem coalescing_single_transaction_witness :
    ∃ t : Transaction,
      (stopCoalescing ([Edit.xform 0 demoXform, Edit.prop 0 "color" (PropVal.num 255)].foldl doEdit (startCoalescing demoState "Drag"))).undoStack = demoState.undoStack ++ [t] ∧
      t.label = "Drag" ∧
      t.changes.length = [Edit.xform 0 demoXform, Edit.prop 0 "color" (PropVal.num 255)].length ∧
      (stopCoalescing ([Edit.xform 0 demoXform, Edit.prop 0 "color" (PropVal.num 255)].foldl doEdit (startCoalescing demoState "Drag"))).currentTransaction = none ∧
      (undo demoFactory (stopCoalescing ([Edit.xform 0 demoXform, Edit.prop 0 "color" (PropVal.num 255)].foldl doEdit (startCoalescing demoState "Drag")))).1 = true ∧
      (undo demoFactory (stopCoalescing ([Edit.xform 0 demoXform, Edit.prop 0 "color" (PropVal.num 255)].foldl doEdit (startCoalescing demoState "Drag")))).2.world = demoState.world ∧
      (undo demoFactory (stopCoalescing ([Edit.xform 0 demoXform, Edit.prop 0 "color" (PropVal.num 255)].foldl doEdit (startCoalescing demoState "Drag")))).2.undoStack = demoState.undoStack :=
  coalescing_single_transaction demoFactory demoState "Drag"
    [Edit.xform 0 demoXform, Edit.prop 0 "color" (PropVal.num 255)]
    rfl rfl rfl rfl (by decide) (by decide) (by decide)
